import Mathlib

/-!
# pautils: `pastat` and `patogglepid`

A shallow embedding of the two PulseAudio utilities of this repository and the
properties of their callbacks and request sequencers.

* `src/pastat.c`      : amplitude monitor (`pa_source_cb`, `pa_read_cb`, `pretty_print`, `pa_stat`)
* `src/patogglepid.c` : sink toggler (`pa_sinklist_cb`, `pa_clientlist_cb`, `pa_streamlist_cb`,
  `pa_move_cb`, `pa_toggle_pid`, `main`)

Conventions.  C strings are `List Char` (without the terminating NUL), `short`, `int` and
`uint32_t` values are integers reduced explicitly by `to_short`, `to_int` and `to_uint32`
wherever the C code converts or may overflow.  The PulseAudio library is the environment: a
run is driven by a script that lists, for every pass of the main loop, what `time(NULL)`
returns and which callbacks `pa_mainloop_iterate` dispatches.  The script is not restricted,
so statements quantified over scripts cover every real run.  The error form of a list
callback (negative `eol` with a null record) and a null buffer handed out by
`pa_stream_peek` are outside the model: records and buffers are always present.
-/

namespace PaUtils

/-! ## C integer conversions -/

/-- Conversion of an integer value to `short` (16 bit, two's complement, modular). -/
def to_short (x : Int) : Int := (x + 32768) % 65536 - 32768

/-- Conversion of an integer value to `int` (32 bit, two's complement, modular). -/
def to_int (x : Int) : Int := (x + 2147483648) % 4294967296 - 2147483648

/-- Conversion of an integer value to `uint32_t`. -/
def to_uint32 (x : Int) : Int := x % 4294967296

/-- The constant `SHRT_MAX`. -/
def SHRT_MAX : Int := 32767

/-- The constant `INT_MAX`. -/
def INT_MAX : Int := 2147483647

/-! ## libc helpers used by the sources -/

/-- Whether `needle` is an initial segment of `hay` (the inner comparison of `strstr`). -/
def starts_with : List Char → List Char → Bool
  | _, [] => true
  | [], _ :: _ => false
  | h :: hs, n :: ns => h == n && starts_with hs ns

/-- The libc function `strstr`: the suffix of `hay` beginning at the first occurrence of
`needle`, or `none` (the null pointer) when there is none.  Byte-wise, hence case-sensitive;
an empty needle matches at the start. -/
def strstr : List Char → List Char → Option (List Char)
  | [], needle => if needle.isEmpty then some [] else none
  | h :: hs, needle =>
    if starts_with (h :: hs) needle then some (h :: hs) else strstr hs needle

/-- Value of a decimal digit character, if it is one. -/
def digit_val (c : Char) : Option Int :=
  if 48 ≤ c.toNat ∧ c.toNat ≤ 57 then some (Int.ofNat (c.toNat - 48)) else none

/-- Accumulate the leading decimal digits of a string. -/
def atoi_digits : List Char → Int → Int
  | [], acc => acc
  | c :: cs, acc =>
    match digit_val c with
    | some d => atoi_digits cs (acc * 10 + d)
    | none => acc

/-- White space as understood by `isspace` in the C locale. -/
def is_space (c : Char) : Bool :=
  c.toNat == 32 || (9 ≤ c.toNat && c.toNat ≤ 13)

/-- The libc function `atoi`: skip white space, read an optional sign and the leading
decimal digits; the value is converted to `int`. -/
def atoi (s : List Char) : Int :=
  match s.dropWhile is_space with
  | [] => 0
  | c :: cs =>
    if c = '-' then to_int (- atoi_digits cs 0)
    else if c = '+' then to_int (atoi_digits cs 0)
    else to_int (atoi_digits (c :: cs) 0)

/-! ## Library calls and output recorded by a run -/

/-- The library calls of both utilities that issue a request or acquire or release a
resource, in the order the program makes them.  Operations are numbered in order of
issue; the list node, the stream and the name string of one monitored source share the
number of that source. -/
inductive Call
  | mainloop_new
  | context_new
  | context_connect
  | get_source_info_list (op : Nat)
  | get_sink_info_list (op : Nat)
  | get_client_info_list (op : Nat)
  | get_sink_input_info_list (op : Nat)
  | move_sink_input_by_index (idx : Int) (sink_idx : Int) (op : Nat)
  | operation_unref (op : Nat)
  | malloc (w : Nat)
  | stream_new (w : Nat)
  | stream_connect_record (w : Nat) (name : List Char)
  | xstrdup (w : Nat)
  | stream_drop (w : Nat)
  | xfree (w : Nat)
  | stream_disconnect (w : Nat)
  | stream_unref (w : Nat)
  | free (w : Nat)
  | context_disconnect
  | context_unref
  | mainloop_free
  deriving DecidableEq, Repr

/-- What the programs print, one constructor per `fprintf` call site. -/
inductive Out
  /-- `"[%u] %s\n"` of the header (pastat.c line 200). -/
  | header_source (idx : Nat) (name : List Char)
  /-- `"[%u]\t"` of the header (line 207). -/
  | header_column (idx : Nat)
  /-- `"\n"` ending a header block (lines 203 and 210). -/
  | header_end
  /-- `"-\t"` printed by `pretty_print` (line 38). -/
  | dash
  /-- `"%2.2f%%\t"` printed by `pretty_print` for the amplitude `s` (line 41). -/
  | percent (s : Int)
  /-- `"\n"` ending a line of samples (line 225). -/
  | tick_end
  /-- A diagnostic written to `stderr`. -/
  | err (msg : String)
  deriving DecidableEq, Repr

/-- The states `pa_context_get_state` can report. -/
inductive pa_context_state_t
  | PA_CONTEXT_UNCONNECTED
  | PA_CONTEXT_CONNECTING
  | PA_CONTEXT_AUTHORIZING
  | PA_CONTEXT_SETTING_NAME
  | PA_CONTEXT_READY
  | PA_CONTEXT_FAILED
  | PA_CONTEXT_TERMINATED
  deriving DecidableEq, Repr

open pa_context_state_t

/-- `pa_state_cb` (both files): the new value of `*pa_ready` when the context reports
state `st`. -/
def pa_state_cb (st : pa_context_state_t) (pa_ready : Int) : Int :=
  match st with
  | PA_CONTEXT_FAILED => 2
  | PA_CONTEXT_TERMINATED => 2
  | PA_CONTEXT_READY => 1
  | _ => pa_ready

/-! ## pastat.c -/

/-- `struct monitored_stream`; the `next` pointer is the tail of the list holding it.
`stream` is the handle returned by `pa_stream_new`. -/
structure monitored_stream where
  stream : Nat
  amp : Int
  source_name : List Char
  source_index : Int
  deriving DecidableEq, Repr

/-- `struct stream_stats`; `head` is the linked list, `ctx` and `spec` are fixed
pointers and not represented. -/
structure stream_stats where
  head : List monitored_stream
  count : Int
  filter : Option (List Char)
  deriving DecidableEq, Repr

/-- The fields of `pa_source_info` that `pa_source_cb` reads. -/
structure pa_source_info where
  name : List Char
  index : Int
  description : List Char
  monitor_of_sink_name : Option (List Char)
  deriving DecidableEq, Repr

/-- The test `pa_operation_get_state (op) == PA_OPERATION_DONE`, where `ops[k]` records
whether operation `k` is done. -/
def operation_done (ops : List Bool) (op : Nat) : Bool := ops.getD op false

/-- `pretty_print`: the field written for amplitude `s`. -/
def pretty_print (s : Int) : Out :=
  if s < 0 then Out.dash else Out.percent s

/-- The condition of line 70-71 of `pa_source_cb`. -/
def source_selected (filter : Option (List Char)) (i : pa_source_info) : Bool :=
  i.monitor_of_sink_name.isSome &&
    (match filter with
     | none => true
     | some f => (strstr i.description f).isSome)

/-- `pa_source_cb` on the registry: `w` is the number of the stream `pa_stream_new`
hands out. -/
def pa_source_cb (stats : stream_stats) (w : Nat) (i : pa_source_info) (last : Int) :
    stream_stats :=
  if last ≠ 0 then stats
  else if source_selected stats.filter i then
    { stats with
      head := { stream := w, amp := -1, source_name := i.description,
                source_index := to_int i.index } :: stats.head
      count := to_int (stats.count + 1) }
  else stats

/-- The library calls `pa_source_cb` makes for the source it registers that acquire a
resource or address the server (`pa_stream_set_read_callback` only stores a pointer). -/
def pa_source_cb_calls (stats : stream_stats) (w : Nat) (i : pa_source_info) (last : Int) :
    List Call :=
  if last ≠ 0 then []
  else if source_selected stats.filter i then
    [Call.malloc w, Call.stream_new w, Call.stream_connect_record w i.name, Call.xstrdup w]
  else []

/-- The sample `((short*)data)[pos]` of a byte buffer (little endian). -/
def short_at (data : List Nat) (pos : Nat) : Int :=
  to_short (Int.ofNat (data.getD (2 * pos) 0 % 256 + 256 * (data.getD (2 * pos + 1) 0 % 256)))

/-- The body of the loop of `pa_read_cb` (lines 102-107): the new `max`. -/
def peak_step (max : Int) (sample : Int) : Int :=
  if sample > max then sample
  else if sample < -max then to_short (-sample)
  else max

/-- `pa_read_cb` on the monitored stream it is attached to.  `peek` is `none` when
`pa_stream_peek` fails and otherwise the bytes it hands out. -/
def pa_read_cb (watch : monitored_stream) (peek : Option (List Nat)) : monitored_stream :=
  match peek with
  | none => watch
  | some data =>
    let slen := data.length / 2
    { watch with
      amp := (List.range slen).foldl (fun max pos => peak_step max (short_at data pos))
               watch.amp }

/-- The library calls of `pa_read_cb`. -/
def pa_read_cb_calls (watch : monitored_stream) (peek : Option (List Nat)) : List Call :=
  match peek with
  | none => []
  | some _ => [Call.stream_drop watch.stream]

/-- The diagnostic of `pa_read_cb` (line 96). -/
def pa_read_cb_out (peek : Option (List Nat)) : List Out :=
  match peek with
  | none => [Out.err "Reading stream failed.\n"]
  | some _ => []

/-- The clean-up of the list of monitored streams in `pa_stat` (lines 160-174) as the
calls it makes: every node but the last is released inside the `while`, the last one
after it. -/
def cleanup_calls : List monitored_stream → List Call
  | [] => []
  | [a] => [Call.stream_disconnect a.stream, Call.stream_unref a.stream,
            Call.xfree a.stream, Call.free a.stream]
  | a :: b :: rest =>
    [Call.xfree a.stream, Call.stream_disconnect a.stream, Call.stream_unref a.stream,
     Call.free a.stream] ++ cleanup_calls (b :: rest)

/-- The header printed in state 2 when `quiet == 0` (lines 197-210); `idx` is `unsigned`. -/
def header_lines (head : List monitored_stream) : List Out :=
  (head.enum.map fun p => Out.header_source (p.1 % 4294967296) p.2.source_name)
    ++ [Out.header_end]
    ++ (head.enum.map fun p => Out.header_column (p.1 % 4294967296))
    ++ [Out.header_end]

/-- A callback dispatched by `pa_mainloop_iterate` while `pastat` runs. -/
inductive StatEvent
  /-- The context changed state: `pa_state_cb`. -/
  | state (st : pa_context_state_t)
  /-- One answer to the source list request: `pa_source_cb (c, i, last, &streams)`. -/
  | source (i : pa_source_info) (last : Int)
  /-- Data is ready on stream `w`: `pa_read_cb`, with the outcome of `pa_stream_peek`. -/
  | read (w : Nat) (peek : Option (List Nat))
  /-- Operation `op` reaches `PA_OPERATION_DONE`. -/
  | op_done (op : Nat)
  deriving DecidableEq, Repr

/-- What the environment supplies to one pass of the main loop of `pa_stat`: the values
of the two `time(NULL)` calls of state 3 and the callbacks dispatched by
`pa_mainloop_iterate` at the end of the pass. -/
structure StatPass where
  time1 : Int
  time2 : Int
  events : List StatEvent
  deriving DecidableEq, Repr

/-- The variables of `pa_stat` together with the record of the run.  `ops[k]` tells
whether operation `k` is done, `ret` is the value returned once the function has
returned. -/
structure Stat where
  state : Int
  pa_ready : Int
  samples : Int
  quiet : Int
  now : Int
  streams : stream_stats
  pa_op : Nat
  ops : List Bool
  calls : List Call
  out : List Out
  ret : Option Int
  deriving DecidableEq, Repr

/-- Dispatch of one callback during `pa_mainloop_iterate` in `pastat`. -/
def stat_dispatch (s : Stat) : StatEvent → Stat
  | StatEvent.state st => { s with pa_ready := pa_state_cb st s.pa_ready }
  | StatEvent.source i last =>
    { s with
      streams := pa_source_cb s.streams s.streams.head.length i last
      calls := s.calls ++ pa_source_cb_calls s.streams s.streams.head.length i last }
  | StatEvent.read w peek =>
    match s.streams.head.find? fun a => a.stream = w with
    | none => s
    | some a =>
      { s with
        streams := { s.streams with
          head := s.streams.head.map fun b => if b.stream = w then pa_read_cb b peek else b }
        calls := s.calls ++ pa_read_cb_calls a peek
        out := s.out ++ pa_read_cb_out peek }
  | StatEvent.op_done op => { s with ops := s.ops.set op true }

/-- `pa_mainloop_iterate (pa_ml, 1, NULL)` in `pastat`: the callbacks in order. -/
def stat_iterate (s : Stat) (events : List StatEvent) : Stat :=
  events.foldl stat_dispatch s

/-- The branch `pa_ready == 2` of `pa_stat` (lines 152-157). -/
def stat_fail_exit (s : Stat) : Stat :=
  { s with
    calls := s.calls ++ [Call.context_disconnect, Call.context_unref, Call.mainloop_free]
    out := s.out ++ [Out.err "Failed to connect to pulse audio\n"]
    ret := some 1 }

/-- The branch `pa_ready == 3` of `pa_stat` (lines 158-178). -/
def stat_teardown_exit (s : Stat) : Stat :=
  { s with
    calls := s.calls ++ cleanup_calls s.streams.head
      ++ [Call.context_disconnect, Call.context_unref, Call.mainloop_free]
    ret := some 0 }

/-- The printing block of state 3 (lines 217-225), entered when `now < time(NULL)`. -/
def stat_tick (s : Stat) (time2 : Int) : Stat :=
  { s with
    now := time2
    samples := to_int (s.samples - 1)
    out := s.out ++ (s.streams.head.map fun a => pretty_print a.amp) ++ [Out.tick_end]
    streams := { s.streams with head := s.streams.head.map fun a => { a with amp := -1 } } }

/-- The `switch (state)` of `pa_stat` (lines 181-235).  A `continue` that sets `pa_ready`
to 3 or 2 is followed through to the `return` it leads to at the top of the loop, since
no callback runs in between; `ret` is set in that case. -/
def stat_switch (s : Stat) (time1 time2 : Int) : Stat :=
  if s.state = 0 then
    { s with
      pa_op := s.ops.length
      ops := s.ops ++ [false]
      calls := s.calls ++ [Call.get_source_info_list s.ops.length]
      state := s.state + 1 }
  else if s.state = 1 then
    if operation_done s.ops s.pa_op then
      { s with calls := s.calls ++ [Call.operation_unref s.pa_op], state := s.state + 1 }
    else s
  else if s.state = 2 then
    { s with
      out := if s.quiet = 0 then s.out ++ header_lines s.streams.head else s.out
      state := s.state + 1 }
  else if s.state = 3 then
    if (if s.now < time1 then stat_tick s time2 else s).samples = 0 then
      stat_teardown_exit { (if s.now < time1 then stat_tick s time2 else s) with pa_ready := 3 }
    else if s.now < time1 then stat_tick s time2 else s
  else stat_fail_exit { s with pa_ready := 2 }

/-- One pass of the `while (1)` loop of `pa_stat` (lines 148-237): the tests of
`pa_ready`, the `switch` and, unless the pass ended in a `return`,
`pa_mainloop_iterate`. -/
def stat_pass (s : Stat) (env : StatPass) : Stat :=
  if s.ret.isSome then s
  else if s.pa_ready = 0 then stat_iterate s env.events
  else if s.pa_ready = 2 then stat_fail_exit s
  else if s.pa_ready = 3 then stat_teardown_exit s
  else if (stat_switch s env.time1 env.time2).ret.isSome then stat_switch s env.time1 env.time2
  else stat_iterate (stat_switch s env.time1 env.time2) env.events

/-- The state of `pa_stat (samples, sink, quiet)` on entry to the main loop (lines
127-145); `t0` is the value of the first `time(NULL)`. -/
def stat_init (samples : Int) (sink : Option (List Char)) (quiet : Int) (t0 : Int) : Stat :=
  { state := 0
    pa_ready := 0
    samples := samples
    quiet := quiet
    now := t0
    streams := { head := [], count := 0, filter := sink }
    pa_op := 0
    ops := []
    calls := [Call.mainloop_new, Call.context_new, Call.context_connect]
    out := []
    ret := none }

/-- `pa_stat (samples, sink, quiet)` run against a script of loop passes. -/
def pa_stat (samples : Int) (sink : Option (List Char)) (quiet : Int) (t0 : Int)
    (script : List StatPass) : Stat :=
  script.foldl stat_pass (stat_init samples sink quiet t0)

/-! ## patogglepid.c -/

/-- `struct pa_target`. -/
structure pa_target where
  pid : Int
  num_sinks : Int
  client_index : Int
  stream_found : Int
  stream_index : Int
  stream_sink : Int
  status : Int
  deriving DecidableEq, Repr

/-- The fields of `pa_client_info` that `pa_clientlist_cb` reads; `proplist` lists the
properties as key and value. -/
structure pa_client_info where
  index : Int
  proplist : List (List Char × List Char)
  deriving DecidableEq, Repr

/-- The fields of `pa_sink_input_info` that `pa_streamlist_cb` reads. -/
structure pa_sink_input_info where
  index : Int
  client : Int
  sink : Int
  deriving DecidableEq, Repr

/-- `pa_proplist_contains`. -/
def pa_proplist_contains (p : List (List Char × List Char)) (key : List Char) : Bool :=
  p.any fun kv => kv.1 = key

/-- `pa_proplist_gets`; the empty string stands for a missing key, which the caller
excludes by `pa_proplist_contains`. -/
def pa_proplist_gets (p : List (List Char × List Char)) (key : List Char) : List Char :=
  match p.find? fun kv => kv.1 = key with
  | some kv => kv.2
  | none => []

/-- The key `"application.process.id"`. -/
def pidkey : List Char := "application.process.id".toList

/-- `pa_sinklist_cb`. -/
def pa_sinklist_cb (target : pa_target) (eol : Int) : pa_target :=
  if eol > 0 then target
  else { target with num_sinks := to_int (target.num_sinks + 1) }

/-- `pa_clientlist_cb`. -/
def pa_clientlist_cb (target : pa_target) (l : pa_client_info) (eol : Int) : pa_target :=
  if eol > 0 then target
  else if pa_proplist_contains l.proplist pidkey then
    if target.pid = atoi (pa_proplist_gets l.proplist pidkey) then
      { target with client_index := to_int l.index }
    else target
  else target

/-- `pa_streamlist_cb`; the comparison of the `uint32_t` field `client` with the `int`
field `client_index` is made in `uint32_t`. -/
def pa_streamlist_cb (target : pa_target) (l : pa_sink_input_info) (eol : Int) : pa_target :=
  if eol > 0 then target
  else if to_uint32 l.client = to_uint32 target.client_index then
    { target with
      stream_found := 1
      stream_index := to_int l.index
      stream_sink := to_int l.sink }
  else target

/-- `pa_move_cb`. -/
def pa_move_cb (target : pa_target) (success : Int) : pa_target :=
  { target with status := success }

/-- A callback dispatched by `pa_mainloop_iterate` while `patogglepid` runs. -/
inductive ToggleEvent
  /-- The context changed state: `pa_state_cb`. -/
  | state (st : pa_context_state_t)
  /-- One answer to the sink list request: `pa_sinklist_cb`. -/
  | sink (eol : Int)
  /-- One answer to the client list request: `pa_clientlist_cb`. -/
  | client (l : pa_client_info) (eol : Int)
  /-- One answer to the sink input list request: `pa_streamlist_cb`. -/
  | stream (l : pa_sink_input_info) (eol : Int)
  /-- The answer to the move request: `pa_move_cb`. -/
  | move (success : Int)
  /-- Operation `op` reaches `PA_OPERATION_DONE`. -/
  | op_done (op : Nat)
  deriving DecidableEq, Repr

/-- The variables of `pa_toggle_pid` together with the record of the run. -/
structure Toggle where
  state : Int
  pa_ready : Int
  target : pa_target
  pa_op : Nat
  ops : List Bool
  calls : List Call
  out : List Out
  ret : Option Int
  deriving DecidableEq, Repr

/-- Dispatch of one callback during `pa_mainloop_iterate` in `patogglepid`. -/
def toggle_dispatch (s : Toggle) : ToggleEvent → Toggle
  | ToggleEvent.state st => { s with pa_ready := pa_state_cb st s.pa_ready }
  | ToggleEvent.sink eol => { s with target := pa_sinklist_cb s.target eol }
  | ToggleEvent.client l eol => { s with target := pa_clientlist_cb s.target l eol }
  | ToggleEvent.stream l eol => { s with target := pa_streamlist_cb s.target l eol }
  | ToggleEvent.move success => { s with target := pa_move_cb s.target success }
  | ToggleEvent.op_done op => { s with ops := s.ops.set op true }

/-- `pa_mainloop_iterate (pa_ml, 1, NULL)` in `patogglepid`: the callbacks in order. -/
def toggle_iterate (s : Toggle) (events : List ToggleEvent) : Toggle :=
  events.foldl toggle_dispatch s

/-- The sink chosen in state 3 (lines 167-170): `stream_sink++`, then back to 0 when the
count is reached. -/
def next_sink (stream_sink num_sinks : Int) : Int :=
  if to_int (stream_sink + 1) ≥ num_sinks then 0 else to_int (stream_sink + 1)

/-- State 3 of `pa_toggle_pid` once the stream list operation is done (lines 166-180). -/
def toggle_resolve (s : Toggle) : Toggle :=
  if s.target.stream_found ≠ 0 then
    { s with
      target := { s.target with
        stream_sink := next_sink s.target.stream_sink s.target.num_sinks }
      pa_op := s.ops.length
      ops := s.ops ++ [false]
      calls := s.calls ++
        [Call.operation_unref s.pa_op,
         Call.move_sink_input_by_index (to_uint32 s.target.stream_index)
           (to_uint32 (next_sink s.target.stream_sink s.target.num_sinks)) s.ops.length]
      state := s.state + 1 }
  else
    { s with
      out := s.out ++ [Out.err "No Stream found for given pid\n"]
      state := s.state + 1 }

/-- A request for one of the three lists, issued in state `0`, `1` or `2`. -/
def toggle_request (s : Toggle) (req : Nat → Call) : Toggle :=
  { s with
    pa_op := s.ops.length
    ops := s.ops ++ [false]
    calls := s.calls ++ [req s.ops.length]
    state := s.state + 1 }

/-- `pa_operation_unref (pa_op)`. -/
def toggle_unref (s : Toggle) : Toggle :=
  { s with calls := s.calls ++ [Call.operation_unref s.pa_op] }

/-- The branch `pa_ready == 2` of `pa_toggle_pid` (lines 125-131). -/
def toggle_fail_exit (s : Toggle) : Toggle :=
  { s with
    calls := s.calls ++ [Call.context_disconnect, Call.context_unref, Call.mainloop_free]
    out := s.out ++ [Out.err "failed to connect to pulse audio\n"]
    ret := some (-1) }

/-- The `switch (state)` of `pa_toggle_pid` (lines 133-197); `ret` is set when a case
returns. -/
def toggle_switch (s : Toggle) : Toggle :=
  if s.state = 0 then toggle_request s Call.get_sink_info_list
  else if s.state = 1 then
    if operation_done s.ops s.pa_op then
      toggle_request (toggle_unref s) Call.get_client_info_list
    else s
  else if s.state = 2 then
    if operation_done s.ops s.pa_op then
      toggle_request (toggle_unref s) Call.get_sink_input_info_list
    else s
  else if s.state = 3 then
    if operation_done s.ops s.pa_op then toggle_resolve s else s
  else if s.state = 4 then
    if operation_done s.ops s.pa_op then
      { s with
        calls := s.calls ++ [Call.operation_unref s.pa_op, Call.context_disconnect,
          Call.context_unref, Call.mainloop_free]
        ret := some 0 }
    else s
  else
    { s with out := s.out ++ [Out.err "in state %d\n"], ret := some (-1) }

/-- One pass of the `for (;;)` loop of `pa_toggle_pid` (lines 119-202): the tests of
`pa_ready`, the `switch` and, unless a case returned, `pa_mainloop_iterate`. -/
def toggle_pass (s : Toggle) (events : List ToggleEvent) : Toggle :=
  if s.ret.isSome then s
  else if s.pa_ready = 0 then toggle_iterate s events
  else if s.pa_ready = 2 then toggle_fail_exit s
  else if (toggle_switch s).ret.isSome then toggle_switch s
  else toggle_iterate (toggle_switch s) events

/-- The state of `pa_toggle_pid (pid)` on entry to the main loop (lines 102-116).  The
fields `client_index`, `stream_index`, `stream_sink` and `status` of `target` are not
initialised by the code: they keep whatever `junk` holds. -/
def toggle_init (pid : Int) (junk : pa_target) : Toggle :=
  { state := 0
    pa_ready := 0
    target := { junk with num_sinks := 0, pid := pid, stream_found := 0 }
    pa_op := 0
    ops := []
    calls := [Call.mainloop_new, Call.context_new, Call.context_connect]
    out := []
    ret := none }

/-- `pa_toggle_pid (pid)` run against a script: one list of callbacks per loop pass. -/
def pa_toggle_pid (pid : Int) (junk : pa_target) (script : List (List ToggleEvent)) : Toggle :=
  script.foldl toggle_pass (toggle_init pid junk)

/-- The exit code `main` of `patogglepid.c` derives from the value `pa_toggle_pid`
returned (lines 215-218). -/
def main_exit (r : Int) : Int := if r < 0 then 1 else 0

/-- `main` of `patogglepid.c` on the argument vector `argv`: the exit code, or `none`
while `pa_toggle_pid` has not returned within the script. -/
def main (argv : List (List Char)) (junk : pa_target) (script : List (List ToggleEvent)) :
    Option Int :=
  if argv.length < 2 then some 0
  else (pa_toggle_pid (atoi (argv.getD 1 [])) junk script).ret.map main_exit

/-! ## Notions used to state the properties -/

/-- The client record `l` carries the property `application.process.id` and its value
reads as `pid`. -/
def carries_pid (pid : Int) (l : pa_client_info) : Prop :=
  pa_proplist_contains l.proplist pidkey = true ∧
    atoi (pa_proplist_gets l.proplist pidkey) = pid

instance (pid : Int) (l : pa_client_info) : Decidable (carries_pid pid l) := by
  unfold carries_pid
  infer_instance

/-- The client pass: `pa_clientlist_cb` applied to the answers to the client list request
in the order they arrive, each a record with its `eol` argument. -/
def client_pass (target : pa_target) (answers : List (pa_client_info × Int)) : pa_target :=
  answers.foldl (fun t e => pa_clientlist_cb t e.1 e.2) target

/-- The stream pass: `pa_streamlist_cb` applied to the answers to the sink input list
request in the order they arrive. -/
def stream_pass (target : pa_target) (answers : List (pa_sink_input_info × Int)) :
    pa_target :=
  answers.foldl (fun t e => pa_streamlist_cb t e.1 e.2) target

/-- Two callbacks are the same up to the success value handed to `pa_move_cb`. -/
def same_but_success : ToggleEvent → ToggleEvent → Prop
  | ToggleEvent.move _, ToggleEvent.move _ => True
  | e1, e2 => e1 = e2

/-- Two scripts that differ only in the success values delivered to `pa_move_cb`. -/
def scripts_differ_in_success (s1 s2 : List (List ToggleEvent)) : Prop :=
  List.Forall₂ (List.Forall₂ same_but_success) s1 s2

/-- A state of `pa_toggle_pid` with the field `status` blanked. -/
def forget_status (s : Toggle) : Toggle :=
  { s with target := { s.target with status := 0 } }

/-- The calls with which `pa_toggle_pid` and `pa_stat` open the connection. -/
def connect_calls : List Call :=
  [Call.mainloop_new, Call.context_new, Call.context_connect]

/-- The calls that end a run: release of the context and of the main loop. -/
def disconnect_calls : List Call :=
  [Call.context_disconnect, Call.context_unref, Call.mainloop_free]

/-- The library calls that issue a request to the server. -/
def is_request : Call → Bool
  | Call.get_source_info_list _ => true
  | Call.get_sink_info_list _ => true
  | Call.get_client_info_list _ => true
  | Call.get_sink_input_info_list _ => true
  | Call.move_sink_input_by_index _ _ _ => true
  | _ => false

/-- The requests among the calls of a run, in order of issue. -/
def requests (calls : List Call) : List Call := calls.filter is_request

/-- The number of operations that were issued and are not done. -/
def outstanding (ops : List Bool) : Nat := ops.count false

/-- Every operation issued so far is done. -/
def all_done (ops : List Bool) : Prop := ∀ k, k < ops.length → ops.getD k false = true

/-- No callback of the pass reports the connection failed or terminated. -/
def no_failure (events : List ToggleEvent) : Prop :=
  ToggleEvent.state PA_CONTEXT_FAILED ∉ events ∧
    ToggleEvent.state PA_CONTEXT_TERMINATED ∉ events

/-- The server completes every operation of the run during the pass. -/
def completes_operations (events : List ToggleEvent) : Prop :=
  ∀ k, k < 4 → ToggleEvent.op_done k ∈ events

/-- The states `pa_toggle_pid` can be in between two passes of its loop: for each value
of `state` the operations issued so far with the only one that may still be running, and
the calls made so far.  `rd`, `t` and `o` are `pa_ready`, `target` and the output. -/
inductive TogglePhase : Toggle → Prop
  | start (rd : Int) (t : pa_target) (p : Nat) (o : List Out) :
    TogglePhase ⟨0, rd, t, p, [], connect_calls, o, none⟩
  | sinks (rd : Int) (t : pa_target) (o : List Out) (a : Bool) :
    TogglePhase ⟨1, rd, t, 0, [a], connect_calls ++ [Call.get_sink_info_list 0], o, none⟩
  | clients (rd : Int) (t : pa_target) (o : List Out) (a : Bool) :
    TogglePhase ⟨2, rd, t, 1, [true, a],
      connect_calls ++ [Call.get_sink_info_list 0, Call.operation_unref 0,
        Call.get_client_info_list 1], o, none⟩
  | streams (rd : Int) (t : pa_target) (o : List Out) (a : Bool) :
    TogglePhase ⟨3, rd, t, 2, [true, true, a],
      connect_calls ++ [Call.get_sink_info_list 0, Call.operation_unref 0,
        Call.get_client_info_list 1, Call.operation_unref 1,
        Call.get_sink_input_info_list 2], o, none⟩
  | unresolved (rd : Int) (t : pa_target) (o : List Out) :
    TogglePhase ⟨4, rd, t, 2, [true, true, true],
      connect_calls ++ [Call.get_sink_info_list 0, Call.operation_unref 0,
        Call.get_client_info_list 1, Call.operation_unref 1,
        Call.get_sink_input_info_list 2], o, none⟩
  | moving (rd : Int) (t : pa_target) (o : List Out) (a : Bool) (i k : Int) :
    TogglePhase ⟨4, rd, t, 3, [true, true, true, a],
      connect_calls ++ [Call.get_sink_info_list 0, Call.operation_unref 0,
        Call.get_client_info_list 1, Call.operation_unref 1,
        Call.get_sink_input_info_list 2, Call.operation_unref 2,
        Call.move_sink_input_by_index i k 3], o, none⟩
  | returned_unresolved (rd : Int) (t : pa_target) (o : List Out) :
    TogglePhase ⟨4, rd, t, 2, [true, true, true],
      connect_calls ++ [Call.get_sink_info_list 0, Call.operation_unref 0,
        Call.get_client_info_list 1, Call.operation_unref 1,
        Call.get_sink_input_info_list 2, Call.operation_unref 2] ++ disconnect_calls,
      o, some 0⟩
  | returned_moved (rd : Int) (t : pa_target) (o : List Out) (i k : Int) :
    TogglePhase ⟨4, rd, t, 3, [true, true, true, true],
      connect_calls ++ [Call.get_sink_info_list 0, Call.operation_unref 0,
        Call.get_client_info_list 1, Call.operation_unref 1,
        Call.get_sink_input_info_list 2, Call.operation_unref 2,
        Call.move_sink_input_by_index i k 3, Call.operation_unref 3] ++ disconnect_calls,
      o, some 0⟩
  | failed (s : Toggle) (o : List Out) (h : TogglePhase s) (hret : s.ret = none)
      (hrd : s.pa_ready = 2) :
    TogglePhase { s with calls := s.calls ++ disconnect_calls, out := o, ret := some (-1) }

/-- A state from which `pa_toggle_pid` is at most `5 - k` prompt passes away from
returning 0. -/
def toggle_good (k : Int) (s : Toggle) : Prop :=
  TogglePhase s ∧
    (s.ret = some 0 ∨ (s.ret = none ∧ s.pa_ready = 1 ∧ all_done s.ops ∧ k ≤ s.state))

/-- The source pass: `pa_source_cb` applied to the answers to the source list request in
the order they arrive, each a record with its `last` argument; streams are numbered in
order of creation. -/
def source_pass (stats : stream_stats) (answers : List (pa_source_info × Int)) :
    stream_stats :=
  answers.foldl (fun st e => pa_source_cb st st.head.length e.1 e.2) stats

/-- The filter as the specification words it: `filter` occurs in `description` as a
substring when letter case is ignored. -/
def contains_ignoring_case (description filter : List Char) : Prop :=
  filter.map Char.toLower <:+: description.map Char.toLower

/-- The answers the specification says are registered with an optional filter: not the
end-of-list call, a monitor of some sink, and matching the filter without regard to
case. -/
def spec_registers (filter : Option (List Char)) (e : pa_source_info × Int) : Prop :=
  e.2 = 0 ∧ e.1.monitor_of_sink_name ≠ none ∧
    ∀ f, filter = some f → contains_ignoring_case e.1.description f

/-- The answers `pa_source_cb` registers: not the end-of-list call, a monitor of some
sink, and with the filter, if any, occurring in the description as it is written. -/
def registers (filter : Option (List Char)) (e : pa_source_info × Int) : Bool :=
  decide (e.2 = 0) && e.1.monitor_of_sink_name.isSome &&
    (match filter with
     | none => true
     | some f => decide (f <:+: e.1.description))

/-- The monitored stream created for the answer `e` as stream number `w`. -/
def new_monitored_stream (w : Nat) (e : pa_source_info × Int) : monitored_stream :=
  { stream := w, amp := -1, source_name := e.1.description, source_index := to_int e.1.index }

/-- A monitor source with the given description. -/
def monitor_source (index : Int) (description : String) : pa_source_info :=
  { name := description.toList ++ ".monitor".toList, index := index,
    description := description.toList, monitor_of_sink_name := some description.toList }

/-- The resources the programs acquire from the library and must give back. -/
inductive Handle
  | mainloop
  | context
  | operation (op : Nat)
  | node (w : Nat)
  | stream (w : Nat)
  | name (w : Nat)
  deriving DecidableEq, Repr

/-- The handle a call acquires, if any. -/
def acquired : Call → Option Handle
  | Call.mainloop_new => some Handle.mainloop
  | Call.context_new => some Handle.context
  | Call.get_source_info_list op => some (Handle.operation op)
  | Call.get_sink_info_list op => some (Handle.operation op)
  | Call.get_client_info_list op => some (Handle.operation op)
  | Call.get_sink_input_info_list op => some (Handle.operation op)
  | Call.move_sink_input_by_index _ _ op => some (Handle.operation op)
  | Call.malloc w => some (Handle.node w)
  | Call.stream_new w => some (Handle.stream w)
  | Call.xstrdup w => some (Handle.name w)
  | _ => none

/-- The handle a call releases, if any. -/
def released : Call → Option Handle
  | Call.mainloop_free => some Handle.mainloop
  | Call.context_unref => some Handle.context
  | Call.operation_unref op => some (Handle.operation op)
  | Call.free w => some (Handle.node w)
  | Call.stream_unref w => some (Handle.stream w)
  | Call.xfree w => some (Handle.name w)
  | _ => none

/-- The handles acquired in a run and never released. -/
def leaked (calls : List Call) : List Handle :=
  (calls.filterMap acquired).filter fun h => !(calls.filterMap released).contains h

/-- The handles released more often than once in a run. -/
def released_twice (calls : List Call) : List Handle :=
  (calls.filterMap released).filter fun h => decide (1 < (calls.filterMap released).count h)

/-- Uninitialised memory of `target` in which `client_index` happens to hold `c`. -/
def junk_target (c : Int) : pa_target :=
  { pid := 0, num_sinks := 0, client_index := c, stream_found := 0, stream_index := 0,
    stream_sink := 0, status := 0 }

/-- A script for `pa_toggle_pid` in which no client carries the pid `1234`: two sinks,
one client of pid `77`, and one stream, of client 7, playing on sink 0. -/
def no_match_script : List (List ToggleEvent) :=
  [[ToggleEvent.state PA_CONTEXT_READY],
   [ToggleEvent.sink 0, ToggleEvent.sink 0, ToggleEvent.sink 1, ToggleEvent.op_done 0],
   [ToggleEvent.client { index := 4, proplist := [(pidkey, "77".toList)] } 0,
    ToggleEvent.client { index := 0, proplist := [] } 1, ToggleEvent.op_done 1],
   [ToggleEvent.stream { index := 10, client := 7, sink := 0 } 0,
    ToggleEvent.stream { index := 0, client := 0, sink := 0 } 1, ToggleEvent.op_done 2],
   [ToggleEvent.move 1, ToggleEvent.op_done 3],
   []]

/-- A script for `pa_stat`: the connection becomes ready, one monitor source is
reported and the source list operation completes, the header pass follows, and the
stream then delivers the single sample `-32768` (bytes `00 80`). -/
def loud_script : List StatPass :=
  [{ time1 := 0, time2 := 0, events := [StatEvent.state PA_CONTEXT_READY] },
   { time1 := 0, time2 := 0,
     events := [StatEvent.source (monitor_source 0 "Game Audio") 0,
                StatEvent.source (monitor_source 0 "Game Audio") 1, StatEvent.op_done 0] },
   { time1 := 0, time2 := 0, events := [] },
   { time1 := 0, time2 := 0, events := [] },
   { time1 := 0, time2 := 0, events := [StatEvent.read 0 (some [0, 128])] }]

/-- A script for `pa_stat` in which the connection fails after a source was registered
and while the source list operation is still running. -/
def dropped_script : List StatPass :=
  [{ time1 := 0, time2 := 0, events := [StatEvent.state PA_CONTEXT_READY] },
   { time1 := 0, time2 := 0,
     events := [StatEvent.source (monitor_source 0 "Game Audio") 0,
                StatEvent.state PA_CONTEXT_FAILED] },
   { time1 := 0, time2 := 0, events := [] }]

/-- The script of the end-to-end example: two sinks, the pid `1234` belongs to client 3,
one stream of client 3 plays on sink 0, and the move is answered with `success`. -/
def example_script (success : Int) : List (List ToggleEvent) :=
  [[ToggleEvent.state PA_CONTEXT_CONNECTING, ToggleEvent.state PA_CONTEXT_READY],
   [ToggleEvent.sink 0, ToggleEvent.sink 0, ToggleEvent.sink 1, ToggleEvent.op_done 0],
   [ToggleEvent.client { index := 3, proplist := [(pidkey, "1234".toList)] } 0,
    ToggleEvent.client { index := 4, proplist := [(pidkey, "77".toList)] } 0,
    ToggleEvent.client { index := 0, proplist := [] } 1, ToggleEvent.op_done 1],
   [ToggleEvent.stream { index := 10, client := 3, sink := 0 } 0,
    ToggleEvent.stream { index := 0, client := 0, sink := 0 } 1, ToggleEvent.op_done 2],
   [ToggleEvent.move success, ToggleEvent.op_done 3],
   []]

/-- The number of lines of samples a run has printed. -/
def tick_lines (out : List Out) : Nat := out.count Out.tick_end

/-- The part of the output written to `stdout`. -/
def printed (out : List Out) : List Out :=
  out.filter fun o =>
    match o with
    | Out.err _ => false
    | _ => true

/-- No callback of the pass of `pa_stat` reports the connection failed or terminated, and
the source list operation completes during it. -/
def stat_prompt (events : List StatEvent) : Prop :=
  StatEvent.state PA_CONTEXT_FAILED ∉ events ∧
    StatEvent.state PA_CONTEXT_TERMINATED ∉ events ∧ StatEvent.op_done 0 ∈ events

/-- No callback of the pass delivers data. -/
def no_data (events : List StatEvent) : Prop :=
  ∀ e ∈ events, ∀ w peek, e ≠ StatEvent.read w peek

/-- The clock read by each pass is ahead of every value `now` may hold by then. -/
def clock_advances : Int → List StatPass → Prop
  | _, [] => True
  | now, p :: ps => now < p.time1 ∧ clock_advances (max now p.time2) ps

/-- What holds of `pa_stat (n, ...)` between two passes of its loop. -/
def StatInv (n : Int) (s : Stat) : Prop :=
  s.samples + tick_lines s.out = n ∧
    ((s.ret = none ∧ 0 < s.samples ∧ (s.pa_ready = 0 ∨ s.pa_ready = 1 ∨ s.pa_ready = 2)) ∨
      (s.ret = some 0 ∧ s.samples = 0) ∨
      (s.ret = some 1 ∧ 0 < s.samples ∧ s.pa_ready = 2)) ∧
    (0 ≤ s.state ∧ s.state ≤ 3) ∧
    (s.state = 0 → s.ops = []) ∧ (s.state = 1 → s.pa_op = 0 ∧ s.ops.length = 1)

/-- A state from which `pa_stat (n, ...)` is at most `n + 3 - k` prompt passes with an
advancing clock away from returning 0. -/
def stat_good (n k : Int) (s : Stat) : Prop :=
  StatInv n s ∧
    (s.ret = some 0 ∨
      (s.ret = none ∧ s.pa_ready = 1 ∧
        ((s.state = 1 → operation_done s.ops s.pa_op = true) ∨ k = 0) ∧
        3 - s.state + s.samples + k ≤ n + 3))

/-- The first passes of a run of `pa_stat` with one monitor source: the connection
becomes ready, then the source is reported and the source list operation completes. -/
def one_source_script : List StatPass :=
  [{ time1 := 0, time2 := 0, events := [StatEvent.state PA_CONTEXT_READY] },
   { time1 := 0, time2 := 0,
     events := [StatEvent.source (monitor_source 0 "Game Audio") 0,
                StatEvent.source (monitor_source 0 "Game Audio") 1, StatEvent.op_done 0] }]

/-- Six passes, one in each of the seconds 1 to 6, in which the server delivers no
data. -/
def seconds_script : List StatPass :=
  [{ time1 := 1, time2 := 1, events := [StatEvent.op_done 0] },
   { time1 := 2, time2 := 2, events := [StatEvent.op_done 0] },
   { time1 := 3, time2 := 3, events := [StatEvent.op_done 0] },
   { time1 := 4, time2 := 4, events := [StatEvent.op_done 0] },
   { time1 := 5, time2 := 5, events := [StatEvent.op_done 0] },
   { time1 := 6, time2 := 6, events := [StatEvent.op_done 0] }]

/-- Some pass of the segment delivers the `PA_CONTEXT_READY` state change. -/
def becomes_ready (segment : List (List ToggleEvent)) : Prop :=
  ∃ ev ∈ segment, ToggleEvent.state PA_CONTEXT_READY ∈ ev

/-- Some pass of the segment sees operation `k` reach `PA_OPERATION_DONE`. -/
def completes (k : Nat) (segment : List (List ToggleEvent)) : Prop :=
  ∃ ev ∈ segment, ToggleEvent.op_done k ∈ ev

instance (events : List ToggleEvent) : Decidable (no_failure events) := by
  unfold no_failure
  infer_instance

instance (segment : List (List ToggleEvent)) : Decidable (becomes_ready segment) := by
  unfold becomes_ready
  infer_instance

instance (k : Nat) (segment : List (List ToggleEvent)) : Decidable (completes k segment) := by
  unfold completes
  infer_instance

/-- A move request is among the calls. -/
def move_issued (calls : List Call) : Prop :=
  ∃ i k, Call.move_sink_input_by_index i k 3 ∈ calls

/-- The run has returned 0, or the connection is ready, the sequencer has reached state
`j` at least and, if it is still there, the operation it waits for is done. -/
def toggle_level (j : Nat) (s : Toggle) : Prop :=
  TogglePhase s ∧
    (s.ret = some 0 ∨
      (s.ret = none ∧ s.pa_ready = 1 ∧ (j : Int) ≤ s.state ∧
        (s.state = j → j = 0 ∨ operation_done s.ops s.pa_op = true)))

/-- The run has returned 0, or it is still connecting or ready. -/
def toggle_connecting (s : Toggle) : Prop :=
  TogglePhase s ∧ (s.ret = some 0 ∨ (s.ret = none ∧ (s.pa_ready = 0 ∨ s.pa_ready = 1)))

/-! # Theorems -/

/-! ## Basic facts about the conversions -/

theorem to_int_of_range {x : Int} (h0 : -2147483648 ≤ x) (h1 : x ≤ 2147483647) :
    to_int x = x := by
  unfold to_int
  omega

theorem to_short_of_range {x : Int} (h0 : -32768 ≤ x) (h1 : x ≤ 32767) :
    to_short x = x := by
  unfold to_short
  omega

theorem to_short_range (x : Int) : -32768 ≤ to_short x ∧ to_short x ≤ 32767 := by
  unfold to_short
  omega

theorem to_uint32_of_range {x : Int} (h0 : 0 ≤ x) (h1 : x < 4294967296) :
    to_uint32 x = x := by
  unfold to_uint32
  omega

theorem to_uint32_to_int (x : Int) : to_uint32 (to_int x) = to_uint32 x := by
  unfold to_uint32 to_int
  omega

/-! ## Callbacks never touch the sequencer variables of `pa_toggle_pid` -/

theorem toggle_dispatch_frame (s : Toggle) (e : ToggleEvent) :
    (toggle_dispatch s e).state = s.state ∧ (toggle_dispatch s e).pa_op = s.pa_op ∧
    (toggle_dispatch s e).calls = s.calls ∧ (toggle_dispatch s e).out = s.out ∧
    (toggle_dispatch s e).ret = s.ret ∧ (toggle_dispatch s e).ops.length = s.ops.length := by
  cases e <;> simp [toggle_dispatch]

theorem toggle_iterate_frame (events : List ToggleEvent) (s : Toggle) :
    (toggle_iterate s events).state = s.state ∧ (toggle_iterate s events).pa_op = s.pa_op ∧
    (toggle_iterate s events).calls = s.calls ∧ (toggle_iterate s events).out = s.out ∧
    (toggle_iterate s events).ret = s.ret ∧
    (toggle_iterate s events).ops.length = s.ops.length := by
  induction events generalizing s with
  | nil => simp [toggle_iterate]
  | cons e es ih =>
    have h1 := toggle_dispatch_frame s e
    have h2 := ih (toggle_dispatch s e)
    simp only [toggle_iterate, List.foldl_cons] at h2 ⊢
    obtain ⟨a1, a2, a3, a4, a5, a6⟩ := h1
    obtain ⟨b1, b2, b3, b4, b5, b6⟩ := h2
    exact ⟨b1.trans a1, b2.trans a2, b3.trans a3, b4.trans a4, b5.trans a5, b6.trans a6⟩

/-! ## Round-robin selection -/

theorem next_sink_eq_mod (c n : Int) (hn : 0 < n) (hmax : n ≤ INT_MAX) (hc0 : 0 ≤ c)
    (hcn : c < n) : next_sink c n = (c + 1) % n := by
  unfold INT_MAX at hmax
  have hw : to_int (c + 1) = c + 1 := to_int_of_range (by omega) (by omega)
  unfold next_sink
  rw [hw]
  by_cases h : c + 1 ≥ n
  · have hc : c + 1 = n := by omega
    rw [if_pos h, hc, Int.emod_self]
  · rw [if_neg h, Int.emod_eq_of_lt (by omega) (by omega)]

/-- C2: in state 3 of `pa_toggle_pid`, with the stream list operation done and a stream
found, for a sink count `n > 0` and a current sink `c` with `0 ≤ c < n` the pass releases
the operation and issues exactly one move request, whose destination sink is
`(c + 1) mod n`; that sink lies in `[0, n)` and is `0` when `c = n - 1`. -/
theorem round_robin_destination (s : Toggle) (events : List ToggleEvent) (n c : Int)
    (hret : s.ret = none) (hready : s.pa_ready = 1) (hstate : s.state = 3)
    (hdone : operation_done s.ops s.pa_op = true) (hfound : s.target.stream_found ≠ 0)
    (hn : s.target.num_sinks = n) (hc : s.target.stream_sink = c)
    (hpos : 0 < n) (hmax : n ≤ INT_MAX) (hc0 : 0 ≤ c) (hcn : c < n) :
    (toggle_pass s events).calls = s.calls ++
        [Call.operation_unref s.pa_op,
         Call.move_sink_input_by_index (to_uint32 s.target.stream_index) ((c + 1) % n)
           s.ops.length] ∧
      0 ≤ (c + 1) % n ∧ (c + 1) % n < n ∧ (c = n - 1 → (c + 1) % n = 0) := by
  have hmod : next_sink c n = (c + 1) % n := next_sink_eq_mod c n hpos hmax hc0 hcn
  have hlo : 0 ≤ (c + 1) % n := Int.emod_nonneg _ (by omega)
  have hhi : (c + 1) % n < n := Int.emod_lt_of_pos _ hpos
  have hu : to_uint32 ((c + 1) % n) = (c + 1) % n :=
    to_uint32_of_range hlo (by unfold INT_MAX at hmax; omega)
  refine ⟨?_, hlo, hhi, ?_⟩
  · have hsw : toggle_switch s = toggle_resolve s := by
      simp [toggle_switch, hstate, hdone]
    have hres : (toggle_resolve s).ret = none ∧ (toggle_resolve s).calls = s.calls ++
        [Call.operation_unref s.pa_op,
         Call.move_sink_input_by_index (to_uint32 s.target.stream_index) ((c + 1) % n)
           s.ops.length] := by
      simp [toggle_resolve, hfound, hn, hc, hmod, hu, hret]
    have hp : toggle_pass s events = toggle_iterate (toggle_resolve s) events := by
      simp [toggle_pass, hret, hready, hsw, hres.1]
    rw [hp, (toggle_iterate_frame events _).2.2.1]
    exact hres.2
  · intro h
    have : c + 1 = n := by omega
    rw [this, Int.emod_self]

theorem round_robin_destination_witness :
    (toggle_pass
        { state := 3, pa_ready := 1,
          target := { pid := 1234, num_sinks := 2, client_index := 3, stream_found := 1,
                      stream_index := 10, stream_sink := 1, status := 0 },
          pa_op := 2, ops := [true, true, true], calls := [], out := [], ret := none }
        []).calls =
      [Call.operation_unref 2, Call.move_sink_input_by_index 10 0 3] := by
  have h := (round_robin_destination
    { state := 3, pa_ready := 1,
      target := { pid := 1234, num_sinks := 2, client_index := 3, stream_found := 1,
                  stream_index := 10, stream_sink := 1, status := 0 },
      pa_op := 2, ops := [true, true, true], calls := [], out := [], ret := none }
    [] 2 1 rfl rfl rfl rfl (by decide) rfl rfl (by decide) (by decide) (by decide)
    (by decide)).1
  simpa [to_uint32] using h

/-! ## The client locator -/

theorem pa_clientlist_cb_frame (t : pa_target) (l : pa_client_info) (eol : Int) :
    pa_clientlist_cb t l eol =
      { t with client_index := (pa_clientlist_cb t l eol).client_index } := by
  unfold pa_clientlist_cb
  split_ifs <;> rfl

theorem pa_clientlist_cb_skip (t : pa_target) (l : pa_client_info) (eol : Int)
    (h : eol > 0 ∨ ¬ carries_pid t.pid l) : pa_clientlist_cb t l eol = t := by
  unfold pa_clientlist_cb
  by_cases h1 : eol > 0
  · rw [if_pos h1]
  · rw [if_neg h1]
    have h2 : ¬ carries_pid t.pid l := h.resolve_left h1
    unfold carries_pid at h2
    by_cases h3 : pa_proplist_contains l.proplist pidkey = true
    · rw [if_pos h3]
      have h4 : ¬ t.pid = atoi (pa_proplist_gets l.proplist pidkey) :=
        fun h5 => h2 ⟨h3, h5.symm⟩
      rw [if_neg h4]
    · rw [if_neg h3]

theorem pa_clientlist_cb_hit (t : pa_target) (l : pa_client_info) (eol : Int)
    (heol : eol ≤ 0) (h : carries_pid t.pid l) :
    pa_clientlist_cb t l eol = { t with client_index := to_int l.index } := by
  unfold pa_clientlist_cb
  rw [if_neg (by omega), if_pos h.1, if_pos h.2.symm]

theorem client_pass_frame (answers : List (pa_client_info × Int)) (t : pa_target) :
    client_pass t answers = { t with client_index := (client_pass t answers).client_index } := by
  induction answers generalizing t with
  | nil => rfl
  | cons e es ih =>
    have h1 := pa_clientlist_cb_frame t e.1 e.2
    have h2 := ih (pa_clientlist_cb t e.1 e.2)
    simp only [client_pass, List.foldl_cons] at h2 ⊢
    rw [h2]
    rw [h1]

theorem client_pass_skip (answers : List (pa_client_info × Int)) (t : pa_target)
    (h : ∀ e ∈ answers, e.2 ≤ 0 → ¬ carries_pid t.pid e.1) : client_pass t answers = t := by
  induction answers generalizing t with
  | nil => rfl
  | cons e es ih =>
    have h1 : pa_clientlist_cb t e.1 e.2 = t := by
      apply pa_clientlist_cb_skip
      by_cases h2 : e.2 > 0
      · exact Or.inl h2
      · exact Or.inr (h e (List.mem_cons_self _ _) (by omega))
    simp only [client_pass, List.foldl_cons, h1]
    exact ih t fun e' he' => h e' (List.mem_cons_of_mem _ he')

/-- C4: the client locator is last-match-wins.  When the answers to the client list
request contain a reported client carrying the target pid and none after it does, the
pass leaves in `client_index` the server index of that client (as `int`; it is the index
itself when that fits, and always the index when read back as `uint32_t`) and changes no
other field; an end-of-list signal, a client without the property or with another pid
leaves the target as it is. -/
theorem client_locator_last_match_wins (target : pa_target)
    (before after : List (pa_client_info × Int)) (l : pa_client_info) (eol : Int)
    (heol : eol ≤ 0) (hl : carries_pid target.pid l)
    (hafter : ∀ e ∈ after, e.2 ≤ 0 → ¬ carries_pid target.pid e.1) :
    client_pass target (before ++ (l, eol) :: after) =
        { target with client_index := to_int l.index } ∧
      to_uint32 (client_pass target (before ++ (l, eol) :: after)).client_index =
        to_uint32 l.index ∧
      (0 ≤ l.index → l.index ≤ INT_MAX →
        (client_pass target (before ++ (l, eol) :: after)).client_index = l.index) ∧
      (∀ (t : pa_target) (l1 : pa_client_info) (eol1 : Int),
        eol1 > 0 ∨ ¬ carries_pid t.pid l1 → pa_clientlist_cb t l1 eol1 = t) := by
  have hmain : client_pass target (before ++ (l, eol) :: after) =
      { target with client_index := to_int l.index } := by
    have hsplit : client_pass target (before ++ (l, eol) :: after) =
        client_pass (pa_clientlist_cb (client_pass target before) l eol) after := by
      simp [client_pass, List.foldl_append]
    have hb := client_pass_frame before target
    have hpid : (client_pass target before).pid = target.pid := by rw [hb]
    have hhit := pa_clientlist_cb_hit (client_pass target before) l eol heol (hpid ▸ hl)
    have hhit2 : pa_clientlist_cb (client_pass target before) l eol =
        { target with client_index := to_int l.index } := by
      rw [hhit, hb]
    rw [hsplit, hhit2]
    exact client_pass_skip after _ hafter
  refine ⟨hmain, ?_, ?_, fun t l1 eol1 h => pa_clientlist_cb_skip t l1 eol1 h⟩
  · rw [hmain]
    exact to_uint32_to_int l.index
  · intro h0 h1
    rw [hmain]
    exact to_int_of_range (by omega) (by unfold INT_MAX at h1; omega)

theorem client_locator_last_match_wins_witness :
    (client_pass
        { pid := 1234, num_sinks := 2, client_index := 77, stream_found := 0,
          stream_index := 0, stream_sink := 0, status := 0 }
        ([({ index := 5, proplist := [(pidkey, "1234".toList)] }, 0)] ++
          ({ index := 9, proplist := [(pidkey, "1234".toList)] }, 0) ::
          [({ index := 11, proplist := [(pidkey, "4321".toList)] }, 0),
           ({ index := 12, proplist := [] }, 0),
           ({ index := 0, proplist := [] }, 1)])).client_index = 9 :=
  (client_locator_last_match_wins
    { pid := 1234, num_sinks := 2, client_index := 77, stream_found := 0,
      stream_index := 0, stream_sink := 0, status := 0 }
    [({ index := 5, proplist := [(pidkey, "1234".toList)] }, 0)]
    [({ index := 11, proplist := [(pidkey, "4321".toList)] }, 0),
     ({ index := 12, proplist := [] }, 0),
     ({ index := 0, proplist := [] }, 1)]
    { index := 9, proplist := [(pidkey, "1234".toList)] } 0
    (by decide) (by decide) (by decide)).2.2.1 (by decide) (by decide)

/-! ## The stream locator -/

/-- Answers to the sink input list request whose client differs from `client_index`
leave the target unchanged; in particular `stream_found` stays as it was. -/
theorem stream_pass_unmatched (answers : List (pa_sink_input_info × Int)) (t : pa_target)
    (h : ∀ e ∈ answers, e.2 ≤ 0 → to_uint32 e.1.client ≠ to_uint32 t.client_index) :
    stream_pass t answers = t := by
  induction answers generalizing t with
  | nil => rfl
  | cons e es ih =>
    have h1 : pa_streamlist_cb t e.1 e.2 = t := by
      unfold pa_streamlist_cb
      by_cases h2 : e.2 > 0
      · rw [if_pos h2]
      · rw [if_neg h2, if_neg (h e (List.mem_cons_self _ _) (by omega))]
    simp only [stream_pass, List.foldl_cons, h1]
    exact ih t fun e1 he1 => h e1 (List.mem_cons_of_mem _ he1)

/-! ## The outcome of the move is never read -/

theorem same_but_success_cases (e1 e2 : ToggleEvent) (h : same_but_success e1 e2) :
    (∃ a b, e1 = ToggleEvent.move a ∧ e2 = ToggleEvent.move b) ∨ e1 = e2 := by
  cases e1 <;> cases e2 <;> simp_all [same_but_success]

theorem forget_status_eq_iff (s1 s2 : Toggle) (hs : forget_status s1 = forget_status s2) :
    s2 = { s1 with target := { s1.target with status := s2.target.status } } := by
  obtain ⟨st1, rd1, ⟨pid1, ns1, ci1, sf1, si1, ss1, status1⟩, op1, ops1, calls1, out1, ret1⟩ := s1
  obtain ⟨st2, rd2, ⟨pid2, ns2, ci2, sf2, si2, ss2, status2⟩, op2, ops2, calls2, out2, ret2⟩ := s2
  simp only [forget_status, Toggle.mk.injEq, pa_target.mk.injEq] at hs
  obtain ⟨rfl, rfl, ⟨rfl, rfl, rfl, rfl, rfl, rfl, -⟩, rfl, rfl, rfl, rfl, rfl⟩ := hs
  rfl

theorem toggle_dispatch_forget (s : Toggle) (x : Int) (e : ToggleEvent) :
    forget_status (toggle_dispatch { s with target := { s.target with status := x } } e) =
      forget_status (toggle_dispatch s e) := by
  cases e <;>
    simp only [toggle_dispatch, forget_status, pa_sinklist_cb, pa_clientlist_cb,
      pa_streamlist_cb, pa_move_cb] <;>
    (try split_ifs) <;> rfl

theorem toggle_dispatch_sim (s1 s2 : Toggle) (e1 e2 : ToggleEvent)
    (hs : forget_status s1 = forget_status s2) (he : same_but_success e1 e2) :
    forget_status (toggle_dispatch s1 e1) = forget_status (toggle_dispatch s2 e2) := by
  rw [forget_status_eq_iff s1 s2 hs]
  rcases same_but_success_cases e1 e2 he with ⟨a, b, rfl, rfl⟩ | rfl
  · rfl
  · exact (toggle_dispatch_forget s1 _ e1).symm

theorem toggle_iterate_sim (ev1 ev2 : List ToggleEvent)
    (hev : List.Forall₂ same_but_success ev1 ev2) (s1 s2 : Toggle)
    (hs : forget_status s1 = forget_status s2) :
    forget_status (toggle_iterate s1 ev1) = forget_status (toggle_iterate s2 ev2) := by
  induction hev generalizing s1 s2 with
  | nil => simpa [toggle_iterate] using hs
  | cons he _ ih =>
    simp only [toggle_iterate, List.foldl_cons]
    exact ih _ _ (toggle_dispatch_sim s1 s2 _ _ hs he)

theorem toggle_switch_forget (s : Toggle) (x : Int) :
    forget_status (toggle_switch { s with target := { s.target with status := x } }) =
      forget_status (toggle_switch s) := by
  simp only [toggle_switch, toggle_request, toggle_unref, toggle_resolve, forget_status]
  split_ifs <;> rfl

theorem toggle_pass_sim (s1 s2 : Toggle) (ev1 ev2 : List ToggleEvent)
    (hs : forget_status s1 = forget_status s2)
    (hev : List.Forall₂ same_but_success ev1 ev2) :
    forget_status (toggle_pass s1 ev1) = forget_status (toggle_pass s2 ev2) := by
  have h2 := forget_status_eq_iff s1 s2 hs
  generalize s2.target.status = x at h2
  subst h2
  have hsw := toggle_switch_forget s1 x
  have hswr : (toggle_switch { s1 with target := { s1.target with status := x } }).ret =
      (toggle_switch s1).ret := by
    have h3 := congrArg Toggle.ret hsw
    exact h3
  unfold toggle_pass
  rw [hswr]
  dsimp only
  by_cases h1 : s1.ret.isSome = true
  · rw [if_pos h1, if_pos h1]
    rfl
  rw [if_neg h1, if_neg h1]
  by_cases h2 : s1.pa_ready = 0
  · rw [if_pos h2, if_pos h2]
    exact toggle_iterate_sim _ _ hev _ _ rfl
  rw [if_neg h2, if_neg h2]
  by_cases h3 : s1.pa_ready = 2
  · rw [if_pos h3, if_pos h3]
    rfl
  rw [if_neg h3, if_neg h3]
  by_cases h4 : (toggle_switch s1).ret.isSome = true
  · rw [if_pos h4, if_pos h4]
    exact hsw.symm
  rw [if_neg h4, if_neg h4]
  exact toggle_iterate_sim _ _ hev _ _ hsw.symm

theorem pa_toggle_pid_sim (script1 script2 : List (List ToggleEvent))
    (h : scripts_differ_in_success script1 script2) (s1 s2 : Toggle)
    (hs : forget_status s1 = forget_status s2) :
    forget_status (script1.foldl toggle_pass s1) =
      forget_status (script2.foldl toggle_pass s2) := by
  induction h generalizing s1 s2 with
  | nil => simpa using hs
  | cons he _ ih =>
    simp only [List.foldl_cons]
    exact ih _ _ (toggle_pass_sim s1 s2 _ _ hs he)

theorem example_run (success : Int) (junk : pa_target) :
    pa_toggle_pid 1234 junk (example_script success) =
      { state := 4, pa_ready := 1,
        target := { pid := 1234, num_sinks := 2, client_index := 3, stream_found := 1,
                    stream_index := 10, stream_sink := 1, status := success },
        pa_op := 3, ops := [true, true, true, true],
        calls := [Call.mainloop_new, Call.context_new, Call.context_connect,
          Call.get_sink_info_list 0, Call.operation_unref 0,
          Call.get_client_info_list 1, Call.operation_unref 1,
          Call.get_sink_input_info_list 2, Call.operation_unref 2,
          Call.move_sink_input_by_index 10 1 3, Call.operation_unref 3,
          Call.context_disconnect, Call.context_unref, Call.mainloop_free],
        out := [], ret := some 0 } := by
  have ha : atoi ['1', '2', '3', '4'] = 1234 := by decide
  have hb : atoi ['7', '7'] = 77 := by decide
  have hk : pa_proplist_gets [(pidkey, ['1', '2', '3', '4'])] pidkey = ['1', '2', '3', '4'] := by
    decide
  have hk2 : pa_proplist_gets [(pidkey, ['7', '7'])] pidkey = ['7', '7'] := by decide
  have hc : pa_proplist_contains [(pidkey, ['1', '2', '3', '4'])] pidkey = true := by decide
  have hc2 : pa_proplist_contains [(pidkey, ['7', '7'])] pidkey = true := by decide
  have hc3 : pa_proplist_contains [] pidkey = false := by decide
  simp [pa_toggle_pid, example_script, toggle_init, toggle_pass, toggle_switch, toggle_iterate,
    toggle_dispatch, pa_state_cb, pa_sinklist_cb, pa_clientlist_cb, pa_streamlist_cb,
    pa_move_cb, toggle_request, toggle_unref, toggle_resolve, operation_done, next_sink,
    to_int, to_uint32, ha, hb, hk, hk2, hc, hc2, hc3]

theorem example_run_returns (success : Int) (junk : pa_target) :
    (pa_toggle_pid 1234 junk (example_script success)).ret = some 0 := by
  rw [example_run]

/-- C10: the result of the toggle utility does not depend on the outcome of the move.
Two runs of `pa_toggle_pid` whose scripts differ only in the success values delivered to
`pa_move_cb` return the same value, make the same library calls (so issue the same
requests), print the same diagnostics and give `main` the same exit code; and the
end-to-end run whose move is answered with failure (success `0`) returns 0 with exit
code 0. -/
theorem move_outcome_ignored (pid : Int) (junk : pa_target)
    (script1 script2 : List (List ToggleEvent))
    (h : scripts_differ_in_success script1 script2) :
    (pa_toggle_pid pid junk script1).ret = (pa_toggle_pid pid junk script2).ret ∧
      (pa_toggle_pid pid junk script1).calls = (pa_toggle_pid pid junk script2).calls ∧
      (pa_toggle_pid pid junk script1).out = (pa_toggle_pid pid junk script2).out ∧
      (∀ argv : List (List Char), main argv junk script1 = main argv junk script2) ∧
      (pa_toggle_pid 1234 junk (example_script 0)).ret = some 0 ∧
      main ["patogglepid".toList, "1234".toList] junk (example_script 0) = some 0 := by
  have key : ∀ (p : Int), forget_status (pa_toggle_pid p junk script1) =
      forget_status (pa_toggle_pid p junk script2) := fun p =>
    pa_toggle_pid_sim script1 script2 h _ _ rfl
  have hret : ∀ p, (pa_toggle_pid p junk script1).ret = (pa_toggle_pid p junk script2).ret := by
    intro p
    have h1 := congrArg Toggle.ret (key p)
    exact h1
  have hcalls := congrArg Toggle.calls (key pid)
  have hout := congrArg Toggle.out (key pid)
  refine ⟨hret pid, hcalls, hout, ?_, ?_, ?_⟩
  · intro argv
    unfold main
    rw [hret]
  · exact example_run_returns 0 junk
  · unfold main
    rw [if_neg (by decide)]
    have h1 : atoi (["patogglepid".toList, "1234".toList].getD 1 []) = 1234 := by decide
    rw [h1, example_run_returns 0 junk]
    rfl

theorem move_outcome_ignored_witness :
    (pa_toggle_pid 1234 (junk_target 0) (example_script 1)).ret =
        (pa_toggle_pid 1234 (junk_target 0) (example_script 0)).ret ∧
      (pa_toggle_pid 1234 (junk_target 0) (example_script 1)).calls =
        (pa_toggle_pid 1234 (junk_target 0) (example_script 0)).calls :=
  ⟨(move_outcome_ignored 1234 (junk_target 0) (example_script 1) (example_script 0)
      (by simp [scripts_differ_in_success, example_script, same_but_success])).1,
   (move_outcome_ignored 1234 (junk_target 0) (example_script 1) (example_script 0)
      (by simp [scripts_differ_in_success, example_script, same_but_success])).2.1⟩

/-! ## The sequencer of `pa_toggle_pid` -/

theorem toggle_phase_dispatch (s : Toggle) (e : ToggleEvent) (h : TogglePhase s)
    (hret : s.ret = none) : TogglePhase (toggle_dispatch s e) := by
  cases h with
  | start rd t p o => cases e <;> simp only [toggle_dispatch, List.set] <;> constructor
  | sinks rd t o a =>
    cases e with
    | op_done k => rcases k with _ | k <;> simp only [toggle_dispatch, List.set] <;> constructor
    | _ => (simp only [toggle_dispatch]; constructor)
  | clients rd t o a =>
    cases e with
    | op_done k =>
      rcases k with _ | _ | k <;> simp only [toggle_dispatch, List.set] <;> constructor
    | _ => (simp only [toggle_dispatch]; constructor)
  | streams rd t o a =>
    cases e with
    | op_done k =>
      rcases k with _ | _ | _ | k <;> simp only [toggle_dispatch, List.set] <;> constructor
    | _ => (simp only [toggle_dispatch]; constructor)
  | unresolved rd t o =>
    cases e with
    | op_done k =>
      rcases k with _ | _ | _ | k <;> simp only [toggle_dispatch, List.set] <;> constructor
    | _ => (simp only [toggle_dispatch]; constructor)
  | moving rd t o a i k0 =>
    cases e with
    | op_done k =>
      rcases k with _ | _ | _ | _ | k <;> simp only [toggle_dispatch, List.set] <;>
        constructor
    | _ => (simp only [toggle_dispatch]; constructor)
  | returned_unresolved rd t o => simp at hret
  | returned_moved rd t o i k => simp at hret
  | failed s o h hr => simp at hret

theorem toggle_phase_iterate (events : List ToggleEvent) (s : Toggle) (h : TogglePhase s)
    (hret : s.ret = none) : TogglePhase (toggle_iterate s events) := by
  induction events generalizing s with
  | nil => exact h
  | cons e es ih =>
    simp only [toggle_iterate, List.foldl_cons]
    exact ih _ (toggle_phase_dispatch s e h hret)
      ((toggle_dispatch_frame s e).2.2.2.2.1.trans hret)

theorem toggle_phase_switch (s : Toggle) (h : TogglePhase s) (hret : s.ret = none) :
    TogglePhase (toggle_switch s) := by
  cases h with
  | start rd t p o => exact TogglePhase.sinks rd t o false
  | sinks rd t o a =>
    cases a with
    | false => exact TogglePhase.sinks rd t o false
    | true => exact TogglePhase.clients rd t o false
  | clients rd t o a =>
    cases a with
    | false => exact TogglePhase.clients rd t o false
    | true => exact TogglePhase.streams rd t o false
  | streams rd t o a =>
    cases a with
    | false => exact TogglePhase.streams rd t o false
    | true =>
      have hsw : toggle_switch ⟨3, rd, t, 2, [true, true, true], connect_calls ++
          [Call.get_sink_info_list 0, Call.operation_unref 0, Call.get_client_info_list 1,
            Call.operation_unref 1, Call.get_sink_input_info_list 2], o, none⟩ =
          toggle_resolve ⟨3, rd, t, 2, [true, true, true], connect_calls ++
          [Call.get_sink_info_list 0, Call.operation_unref 0, Call.get_client_info_list 1,
            Call.operation_unref 1, Call.get_sink_input_info_list 2], o, none⟩ := rfl
      rw [hsw]
      unfold toggle_resolve
      by_cases hf : t.stream_found ≠ 0
      · rw [if_pos hf]
        exact TogglePhase.moving rd _ o false _ _
      · rw [if_neg hf]
        exact TogglePhase.unresolved rd t _
  | unresolved rd t o => exact TogglePhase.returned_unresolved rd t o
  | moving rd t o a i k =>
    cases a with
    | false => exact TogglePhase.moving rd t o false i k
    | true => exact TogglePhase.returned_moved rd t o i k
  | returned_unresolved rd t o => simp at hret
  | returned_moved rd t o i k => simp at hret
  | failed s o h hr => simp at hret

theorem ret_none_of_not_isSome {x : Option Int} (h : ¬ x.isSome = true) : x = none := by
  cases x with
  | none => rfl
  | some v => simp at h

theorem toggle_phase_pass (s : Toggle) (events : List ToggleEvent) (h : TogglePhase s) :
    TogglePhase (toggle_pass s events) := by
  unfold toggle_pass
  by_cases h1 : s.ret.isSome = true
  · rw [if_pos h1]
    exact h
  rw [if_neg h1]
  have hret : s.ret = none := ret_none_of_not_isSome h1
  by_cases h2 : s.pa_ready = 0
  · rw [if_pos h2]
    exact toggle_phase_iterate events s h hret
  rw [if_neg h2]
  by_cases h3 : s.pa_ready = 2
  · rw [if_pos h3]
    exact TogglePhase.failed s _ h hret h3
  rw [if_neg h3]
  have hsw := toggle_phase_switch s h hret
  by_cases h4 : (toggle_switch s).ret.isSome = true
  · rw [if_pos h4]
    exact hsw
  rw [if_neg h4]
  exact toggle_phase_iterate events _ hsw (ret_none_of_not_isSome h4)

theorem toggle_phase_run (pid : Int) (junk : pa_target) (script : List (List ToggleEvent)) :
    TogglePhase (pa_toggle_pid pid junk script) := by
  unfold pa_toggle_pid
  have h0 : TogglePhase (toggle_init pid junk) := TogglePhase.start _ _ _ _
  generalize toggle_init pid junk = s at h0
  induction script generalizing s with
  | nil => exact h0
  | cons ev rest ih =>
    simp only [List.foldl_cons]
    exact ih _ (toggle_phase_pass s ev h0)

theorem requests_append (a b : List Call) : requests (a ++ b) = requests a ++ requests b := by
  unfold requests
  exact List.filter_append a b

theorem requests_disconnect : requests disconnect_calls = [] := by decide

theorem toggle_phase_requests (s : Toggle) (h : TogglePhase s) :
    ∃ i k, requests s.calls <+:
      [Call.get_sink_info_list 0, Call.get_client_info_list 1,
       Call.get_sink_input_info_list 2, Call.move_sink_input_by_index i k 3] := by
  induction h with
  | start rd t p o => exact ⟨0, 0, _, rfl⟩
  | sinks rd t o a => exact ⟨0, 0, _, rfl⟩
  | clients rd t o a => exact ⟨0, 0, _, rfl⟩
  | streams rd t o a => exact ⟨0, 0, _, rfl⟩
  | unresolved rd t o => exact ⟨0, 0, _, rfl⟩
  | moving rd t o a i k => exact ⟨i, k, [], rfl⟩
  | returned_unresolved rd t o => exact ⟨0, 0, _, rfl⟩
  | returned_moved rd t o i k => exact ⟨i, k, [], rfl⟩
  | failed s o h hr hrd ih =>
    obtain ⟨i, k, hp⟩ := ih
    refine ⟨i, k, ?_⟩
    show requests (s.calls ++ disconnect_calls) <+: _
    rw [requests_append, requests_disconnect, List.append_nil]
    exact hp

theorem toggle_phase_failed (s : Toggle) (h : TogglePhase s) (hret : s.ret = some (-1)) :
    s.pa_ready = 2 := by
  cases h with
  | failed s o h hr hrd => exact hrd
  | _ => simp at hret

theorem toggle_phase_outstanding (s : Toggle) (h : TogglePhase s) :
    outstanding s.ops ≤ 1 ∧ (s.ret = some 0 → outstanding s.ops = 0) ∧ s.ops.length ≤ 4 ∧
      0 ≤ s.state ∧ s.state ≤ 4 ∧ (s.ret = none ∨ s.ret = some 0 ∨ s.ret = some (-1)) := by
  induction h with
  | start rd t p o => simp [outstanding]
  | sinks rd t o a => cases a <;> simp [outstanding]
  | clients rd t o a => cases a <;> simp [outstanding]
  | streams rd t o a => cases a <;> simp [outstanding]
  | unresolved rd t o => simp [outstanding]
  | moving rd t o a i k => cases a <;> simp [outstanding]
  | returned_unresolved rd t o => simp [outstanding]
  | returned_moved rd t o i k => simp [outstanding]
  | failed s o h hr hrd ih =>
    obtain ⟨h1, -, h3, h4, h5, -⟩ := ih
    exact ⟨h1, fun hc => by simp at hc, h3, h4, h5, Or.inr (Or.inr rfl)⟩

theorem toggle_switch_waits (s : Toggle) (h : TogglePhase s) (hret : s.ret = none)
    (hout : outstanding s.ops ≠ 0) : toggle_switch s = s := by
  cases h with
  | start rd t p o => simp [outstanding] at hout
  | sinks rd t o a =>
    cases a with
    | false => rfl
    | true => simp [outstanding] at hout
  | clients rd t o a =>
    cases a with
    | false => rfl
    | true => simp [outstanding] at hout
  | streams rd t o a =>
    cases a with
    | false => rfl
    | true => simp [outstanding] at hout
  | unresolved rd t o => simp [outstanding] at hout
  | moving rd t o a i k =>
    cases a with
    | false => rfl
    | true => simp [outstanding] at hout
  | returned_unresolved rd t o => simp at hret
  | returned_moved rd t o i k => simp at hret
  | failed s o h hr => simp at hret

theorem toggle_pass_waits (s : Toggle) (events : List ToggleEvent) (h : TogglePhase s)
    (hout : outstanding s.ops ≠ 0) :
    requests (toggle_pass s events).calls = requests s.calls := by
  unfold toggle_pass
  by_cases h1 : s.ret.isSome = true
  · rw [if_pos h1]
  rw [if_neg h1]
  have hret : s.ret = none := ret_none_of_not_isSome h1
  by_cases h2 : s.pa_ready = 0
  · rw [if_pos h2, (toggle_iterate_frame events s).2.2.1]
  rw [if_neg h2]
  by_cases h3 : s.pa_ready = 2
  · rw [if_pos h3]
    show requests (s.calls ++ disconnect_calls) = _
    rw [requests_append, requests_disconnect, List.append_nil]
  rw [if_neg h3, toggle_switch_waits s h hret hout, if_neg h1,
    (toggle_iterate_frame events s).2.2.1]

/-! ### Progress of `pa_toggle_pid` when the server answers -/

theorem getD_set_true_mono (ops : List Bool) (j k : Nat) (h : ops.getD k false = true) :
    (ops.set j true).getD k false = true := by
  simp only [List.getD_eq_getElem?_getD] at h ⊢
  rw [List.getElem?_set]
  split_ifs with h1 h2
  · rfl
  · subst h1
    have : ops[j]? = none := List.getElem?_eq_none (by omega)
    rw [this] at h
    simp at h
  · exact h

theorem getD_set_true_self (ops : List Bool) (k : Nat) (h : k < ops.length) :
    (ops.set k true).getD k false = true := by
  simp only [List.getD_eq_getElem?_getD]
  rw [List.getElem?_set]
  simp [h]

theorem toggle_dispatch_done_mono (s : Toggle) (e : ToggleEvent) (k : Nat)
    (h : s.ops.getD k false = true) : (toggle_dispatch s e).ops.getD k false = true := by
  cases e with
  | op_done j => exact getD_set_true_mono s.ops j k h
  | _ => exact h

theorem toggle_iterate_done_mono (events : List ToggleEvent) (s : Toggle) (k : Nat)
    (h : s.ops.getD k false = true) : (toggle_iterate s events).ops.getD k false = true := by
  induction events generalizing s with
  | nil => exact h
  | cons e es ih =>
    simp only [toggle_iterate, List.foldl_cons]
    exact ih _ (toggle_dispatch_done_mono s e k h)

theorem toggle_iterate_completes (events : List ToggleEvent) (s : Toggle) (k : Nat)
    (hk : k < s.ops.length) (hmem : ToggleEvent.op_done k ∈ events) :
    (toggle_iterate s events).ops.getD k false = true := by
  induction events generalizing s with
  | nil => simp at hmem
  | cons e es ih =>
    simp only [toggle_iterate, List.foldl_cons]
    rcases List.mem_cons.mp hmem with h1 | h1
    · subst h1
      exact toggle_iterate_done_mono es _ k (getD_set_true_self s.ops k hk)
    · exact ih _ (by rw [(toggle_dispatch_frame s e).2.2.2.2.2]; exact hk) h1

theorem toggle_iterate_ready (events : List ToggleEvent) (s : Toggle)
    (hnf : no_failure events) (hready : s.pa_ready = 1) :
    (toggle_iterate s events).pa_ready = 1 := by
  induction events generalizing s with
  | nil => exact hready
  | cons e es ih =>
    simp only [toggle_iterate, List.foldl_cons]
    have hnf2 : no_failure es :=
      ⟨fun hc => hnf.1 (List.mem_cons_of_mem _ hc), fun hc => hnf.2 (List.mem_cons_of_mem _ hc)⟩
    apply ih _ hnf2
    cases e with
    | state st =>
      cases st with
      | PA_CONTEXT_FAILED => exact absurd (List.mem_cons_self _ _) hnf.1
      | PA_CONTEXT_TERMINATED => exact absurd (List.mem_cons_self _ _) hnf.2
      | PA_CONTEXT_READY => rfl
      | _ => exact hready
    | _ => exact hready

theorem toggle_iterate_prompt (events : List ToggleEvent) (s : Toggle)
    (hnf : no_failure events) (hco : completes_operations events) (hready : s.pa_ready = 1)
    (hlen : s.ops.length ≤ 4) :
    (toggle_iterate s events).pa_ready = 1 ∧ all_done (toggle_iterate s events).ops := by
  refine ⟨toggle_iterate_ready events s hnf hready, ?_⟩
  intro k hk
  rw [(toggle_iterate_frame events s).2.2.2.2.2] at hk
  exact toggle_iterate_completes events s k hk (hco k (by omega))

theorem one_le_of_eq {x : Int} (y : Int) (h : x = y) (hy : 1 ≤ y) : 1 ≤ x := h ▸ hy

theorem toggle_switch_first (s : Toggle) (h : TogglePhase s) (hret : s.ret = none) :
    (toggle_switch s).pa_ready = s.pa_ready ∧
      ((toggle_switch s).ret = some 0 ∨
        ((toggle_switch s).ret = none ∧ 1 ≤ (toggle_switch s).state)) := by
  cases h with
  | start rd t p o => exact ⟨rfl, Or.inr ⟨rfl, one_le_of_eq 1 rfl (by decide)⟩⟩
  | sinks rd t o a =>
    cases a with
    | false => exact ⟨rfl, Or.inr ⟨rfl, one_le_of_eq 1 rfl (by decide)⟩⟩
    | true => exact ⟨rfl, Or.inr ⟨rfl, one_le_of_eq 2 rfl (by decide)⟩⟩
  | clients rd t o a =>
    cases a with
    | false => exact ⟨rfl, Or.inr ⟨rfl, one_le_of_eq 2 rfl (by decide)⟩⟩
    | true => exact ⟨rfl, Or.inr ⟨rfl, one_le_of_eq 3 rfl (by decide)⟩⟩
  | streams rd t o a =>
    cases a with
    | false => exact ⟨rfl, Or.inr ⟨rfl, one_le_of_eq 3 rfl (by decide)⟩⟩
    | true =>
      have hsw : toggle_switch ⟨3, rd, t, 2, [true, true, true], connect_calls ++
          [Call.get_sink_info_list 0, Call.operation_unref 0, Call.get_client_info_list 1,
            Call.operation_unref 1, Call.get_sink_input_info_list 2], o, none⟩ =
          toggle_resolve ⟨3, rd, t, 2, [true, true, true], connect_calls ++
          [Call.get_sink_info_list 0, Call.operation_unref 0, Call.get_client_info_list 1,
            Call.operation_unref 1, Call.get_sink_input_info_list 2], o, none⟩ := rfl
      rw [hsw]
      unfold toggle_resolve
      by_cases hf : t.stream_found ≠ 0
      · rw [if_pos hf]
        exact ⟨rfl, Or.inr ⟨rfl, one_le_of_eq 4 rfl (by decide)⟩⟩
      · rw [if_neg hf]
        exact ⟨rfl, Or.inr ⟨rfl, one_le_of_eq 4 rfl (by decide)⟩⟩
  | unresolved rd t o => exact ⟨rfl, Or.inl rfl⟩
  | moving rd t o a i k =>
    cases a with
    | false => exact ⟨rfl, Or.inr ⟨rfl, one_le_of_eq 4 rfl (by decide)⟩⟩
    | true => exact ⟨rfl, Or.inl rfl⟩
  | returned_unresolved rd t o => simp at hret
  | returned_moved rd t o i k => simp at hret
  | failed s o h hr => simp at hret

theorem toggle_switch_advance (s : Toggle) (h : TogglePhase s) (hret : s.ret = none)
    (hdone : all_done s.ops) :
    (toggle_switch s).ret = some 0 ∨
      ((toggle_switch s).ret = none ∧ (toggle_switch s).state = s.state + 1) := by
  cases h with
  | start rd t p o => exact Or.inr ⟨rfl, rfl⟩
  | sinks rd t o a =>
    have ha : a = true := by simpa using hdone 0 (by simp)
    subst ha
    exact Or.inr ⟨rfl, rfl⟩
  | clients rd t o a =>
    have ha : a = true := by simpa using hdone 1 (by simp)
    subst ha
    exact Or.inr ⟨rfl, rfl⟩
  | streams rd t o a =>
    have ha : a = true := by simpa using hdone 2 (by simp)
    subst ha
    have hsw : toggle_switch ⟨3, rd, t, 2, [true, true, true], connect_calls ++
        [Call.get_sink_info_list 0, Call.operation_unref 0, Call.get_client_info_list 1,
          Call.operation_unref 1, Call.get_sink_input_info_list 2], o, none⟩ =
        toggle_resolve ⟨3, rd, t, 2, [true, true, true], connect_calls ++
        [Call.get_sink_info_list 0, Call.operation_unref 0, Call.get_client_info_list 1,
          Call.operation_unref 1, Call.get_sink_input_info_list 2], o, none⟩ := rfl
    rw [hsw]
    unfold toggle_resolve
    by_cases hf : t.stream_found ≠ 0
    · rw [if_pos hf]
      exact Or.inr ⟨rfl, rfl⟩
    · rw [if_neg hf]
      exact Or.inr ⟨rfl, rfl⟩
  | unresolved rd t o => exact Or.inl rfl
  | moving rd t o a i k =>
    have ha : a = true := by simpa using hdone 3 (by simp)
    subst ha
    exact Or.inl rfl
  | returned_unresolved rd t o => simp at hret
  | returned_moved rd t o i k => simp at hret
  | failed s o h hr => simp at hret

theorem toggle_switch_ready (s : Toggle) (h : TogglePhase s) (hret : s.ret = none) :
    (toggle_switch s).pa_ready = s.pa_ready := (toggle_switch_first s h hret).1

theorem toggle_good_first (s : Toggle) (events : List ToggleEvent) (h : TogglePhase s)
    (hret : s.ret = none) (hready : s.pa_ready = 1) (hnf : no_failure events)
    (hco : completes_operations events) : toggle_good 1 (toggle_pass s events) := by
  refine ⟨toggle_phase_pass s events h, ?_⟩
  have hsw := toggle_phase_switch s h hret
  have hlen := (toggle_phase_outstanding _ hsw).2.2.1
  obtain ⟨hrd, hcase⟩ := toggle_switch_first s h hret
  unfold toggle_pass
  rw [if_neg (by rw [hret]; simp), if_neg (by rw [hready]; decide),
    if_neg (by rw [hready]; decide)]
  rcases hcase with h0 | ⟨hn, hst⟩
  · rw [if_pos (by rw [h0]; rfl)]
    exact Or.inl h0
  · rw [if_neg (by rw [hn]; simp)]
    have hp := toggle_iterate_prompt events _ hnf hco (hrd.trans hready) hlen
    have hf := toggle_iterate_frame events (toggle_switch s)
    exact Or.inr ⟨hf.2.2.2.2.1.trans hn, hp.1, hp.2, by rw [hf.1]; exact hst⟩

theorem toggle_good_step (k : Int) (s : Toggle) (events : List ToggleEvent)
    (h : toggle_good k s) (hnf : no_failure events) (hco : completes_operations events) :
    toggle_good (k + 1) (toggle_pass s events) := by
  obtain ⟨hph, hcase⟩ := h
  refine ⟨toggle_phase_pass s events hph, ?_⟩
  rcases hcase with h0 | ⟨hret, hready, hdone, hk⟩
  · unfold toggle_pass
    rw [if_pos (by rw [h0]; rfl)]
    exact Or.inl h0
  · have hsw := toggle_phase_switch s hph hret
    have hlen := (toggle_phase_outstanding _ hsw).2.2.1
    have hrd := toggle_switch_ready s hph hret
    unfold toggle_pass
    rw [if_neg (by rw [hret]; simp), if_neg (by rw [hready]; decide),
      if_neg (by rw [hready]; decide)]
    rcases toggle_switch_advance s hph hret hdone with h0 | ⟨hn, hst⟩
    · rw [if_pos (by rw [h0]; rfl)]
      exact Or.inl h0
    · rw [if_neg (by rw [hn]; simp)]
      have hp := toggle_iterate_prompt events _ hnf hco (hrd.trans hready) hlen
      have hf := toggle_iterate_frame events (toggle_switch s)
      exact Or.inr ⟨hf.2.2.2.2.1.trans hn, hp.1, hp.2, by rw [hf.1, hst]; omega⟩

theorem toggle_good_run (more : List (List ToggleEvent)) (k : Int) (s : Toggle)
    (h : toggle_good k s)
    (hmore : ∀ ev ∈ more, no_failure ev ∧ completes_operations ev) :
    toggle_good (k + more.length) (more.foldl toggle_pass s) := by
  induction more generalizing k s with
  | nil => simpa using h
  | cons ev rest ih =>
    simp only [List.foldl_cons, List.length_cons]
    have h1 := toggle_good_step k s ev h (hmore ev (List.mem_cons_self _ _)).1
      (hmore ev (List.mem_cons_self _ _)).2
    have h2 := ih (k + 1) _ h1 fun e he => hmore e (List.mem_cons_of_mem _ he)
    have he : k + ((rest.length : Int) + 1) = k + 1 + rest.length := by omega
    push_cast
    rw [he]
    exact h2

theorem toggle_good_returned (k : Int) (s : Toggle) (h : toggle_good k s) (hk : 5 ≤ k) :
    s.ret = some 0 := by
  obtain ⟨hph, hcase⟩ := h
  rcases hcase with h0 | ⟨-, -, -, hst⟩
  · exact h0
  · have := (toggle_phase_outstanding s hph).2.2.2.2.1
    omega

theorem toggle_returns (s : Toggle) (more : List (List ToggleEvent)) (h : TogglePhase s)
    (hret : s.ret = none) (hready : s.pa_ready = 1) (hlen : 5 ≤ more.length)
    (hmore : ∀ ev ∈ more, no_failure ev ∧ completes_operations ev) :
    (more.foldl toggle_pass s).ret = some 0 := by
  cases more with
  | nil => simp at hlen
  | cons ev rest =>
    simp only [List.foldl_cons]
    have h1 := toggle_good_first s ev h hret hready (hmore ev (List.mem_cons_self _ _)).1
      (hmore ev (List.mem_cons_self _ _)).2
    have h2 := toggle_good_run rest 1 _ h1 fun e he => hmore e (List.mem_cons_of_mem _ he)
    refine toggle_good_returned _ _ h2 ?_
    simp only [List.length_cons] at hlen
    omega

/-! ### Progress of `pa_toggle_pid` when every operation completes eventually -/

theorem toggle_switch_step (s : Toggle) (h : TogglePhase s) (hret : s.ret = none) :
    (toggle_switch s).pa_ready = s.pa_ready ∧
      (((toggle_switch s).ret = none ∧ (toggle_switch s).state = s.state ∧ s.state ≠ 0 ∧
          operation_done s.ops s.pa_op = false) ∨
        ((toggle_switch s).ret = none ∧ (toggle_switch s).state = s.state + 1) ∨
        (toggle_switch s).ret = some 0) := by
  cases h with
  | start rd t p o => exact ⟨rfl, Or.inr (Or.inl ⟨rfl, rfl⟩)⟩
  | sinks rd t o a =>
    cases a with
    | false =>
      exact ⟨rfl, Or.inl ⟨rfl, rfl, fun hc => absurd (show (1 : Int) = 0 from hc) (by decide),
        rfl⟩⟩
    | true => exact ⟨rfl, Or.inr (Or.inl ⟨rfl, rfl⟩)⟩
  | clients rd t o a =>
    cases a with
    | false =>
      exact ⟨rfl, Or.inl ⟨rfl, rfl, fun hc => absurd (show (2 : Int) = 0 from hc) (by decide),
        rfl⟩⟩
    | true => exact ⟨rfl, Or.inr (Or.inl ⟨rfl, rfl⟩)⟩
  | streams rd t o a =>
    cases a with
    | false =>
      exact ⟨rfl, Or.inl ⟨rfl, rfl, fun hc => absurd (show (3 : Int) = 0 from hc) (by decide),
        rfl⟩⟩
    | true =>
      have hsw : toggle_switch ⟨3, rd, t, 2, [true, true, true], connect_calls ++
          [Call.get_sink_info_list 0, Call.operation_unref 0, Call.get_client_info_list 1,
            Call.operation_unref 1, Call.get_sink_input_info_list 2], o, none⟩ =
          toggle_resolve ⟨3, rd, t, 2, [true, true, true], connect_calls ++
          [Call.get_sink_info_list 0, Call.operation_unref 0, Call.get_client_info_list 1,
            Call.operation_unref 1, Call.get_sink_input_info_list 2], o, none⟩ := rfl
      rw [hsw]
      unfold toggle_resolve
      by_cases hf : t.stream_found ≠ 0
      · rw [if_pos hf]
        exact ⟨rfl, Or.inr (Or.inl ⟨rfl, rfl⟩)⟩
      · rw [if_neg hf]
        exact ⟨rfl, Or.inr (Or.inl ⟨rfl, rfl⟩)⟩
  | unresolved rd t o => exact ⟨rfl, Or.inr (Or.inr rfl)⟩
  | moving rd t o a i k =>
    cases a with
    | false =>
      exact ⟨rfl, Or.inl ⟨rfl, rfl, fun hc => absurd (show (4 : Int) = 0 from hc) (by decide),
        rfl⟩⟩
    | true => exact ⟨rfl, Or.inr (Or.inr rfl)⟩
  | returned_unresolved rd t o => simp at hret
  | returned_moved rd t o i k => simp at hret
  | failed s o h hr => simp at hret

theorem toggle_phase_pa_op (s : Toggle) (h : TogglePhase s) (hret : s.ret = none)
    (hstate : 1 ≤ s.state) :
    (((s.pa_op : Int) + 1 = s.state ∧ s.pa_op < s.ops.length) ∧
        (s.pa_op = 3 → move_issued s.calls)) ∨
      operation_done s.ops s.pa_op = true := by
  cases h with
  | start rd t p o => exact absurd (show (1 : Int) ≤ 0 from hstate) (by decide)
  | sinks rd t o a =>
    exact Or.inl ⟨⟨rfl, Nat.lt_succ_self _⟩, fun hc => absurd (show 0 = 3 from hc) (by decide)⟩
  | clients rd t o a =>
    exact Or.inl ⟨⟨rfl, Nat.lt_succ_self _⟩, fun hc => absurd (show 1 = 3 from hc) (by decide)⟩
  | streams rd t o a =>
    exact Or.inl ⟨⟨rfl, Nat.lt_succ_self _⟩, fun hc => absurd (show 2 = 3 from hc) (by decide)⟩
  | unresolved rd t o => exact Or.inr rfl
  | moving rd t o a i k =>
    refine Or.inl ⟨⟨rfl, Nat.lt_succ_self _⟩, fun _ => ⟨i, k, ?_⟩⟩
    simp [connect_calls]
  | returned_unresolved rd t o => simp at hret
  | returned_moved rd t o i k => simp at hret
  | failed s o h hr => simp at hret

theorem toggle_switch_calls (s : Toggle) : ∃ l, (toggle_switch s).calls = s.calls ++ l := by
  unfold toggle_switch toggle_resolve toggle_request toggle_unref
  split_ifs
  all_goals first
    | exact ⟨[], (List.append_nil _).symm⟩
    | exact ⟨_, rfl⟩
    | exact ⟨_, List.append_assoc _ _ _⟩

theorem toggle_pass_calls (s : Toggle) (events : List ToggleEvent) :
    ∃ l, (toggle_pass s events).calls = s.calls ++ l := by
  unfold toggle_pass
  split_ifs
  · exact ⟨[], (List.append_nil _).symm⟩
  · rw [(toggle_iterate_frame events s).2.2.1]
    exact ⟨[], (List.append_nil _).symm⟩
  · exact ⟨_, rfl⟩
  · exact toggle_switch_calls s
  · rw [(toggle_iterate_frame events _).2.2.1]
    exact toggle_switch_calls s

theorem toggle_run_calls (more : List (List ToggleEvent)) (s : Toggle) :
    ∃ l, (more.foldl toggle_pass s).calls = s.calls ++ l := by
  induction more generalizing s with
  | nil => exact ⟨[], (List.append_nil _).symm⟩
  | cons ev rest ih =>
    obtain ⟨l1, h1⟩ := toggle_pass_calls s ev
    obtain ⟨l2, h2⟩ := ih (toggle_pass s ev)
    refine ⟨l1 ++ l2, ?_⟩
    simp only [List.foldl_cons]
    rw [h2, h1, List.append_assoc]

theorem move_issued_run (more : List (List ToggleEvent)) (s : Toggle)
    (h : move_issued s.calls) : move_issued (more.foldl toggle_pass s).calls := by
  obtain ⟨i, k, hm⟩ := h
  obtain ⟨l, hl⟩ := toggle_run_calls more s
  exact ⟨i, k, by rw [hl]; exact List.mem_append_left _ hm⟩

theorem toggle_level_pass (j : Nat) (s : Toggle) (events : List ToggleEvent)
    (h : toggle_level j s) (hnf : no_failure events) :
    toggle_level j (toggle_pass s events) ∧
      (ToggleEvent.op_done j ∈ events → toggle_level (j + 1) (toggle_pass s events)) ∧
      (j = 3 → ¬ move_issued (toggle_pass s events).calls →
        toggle_level 4 (toggle_pass s events)) := by
  obtain ⟨hph, hcase⟩ := h
  have hph2 := toggle_phase_pass s events hph
  rcases hcase with h0 | ⟨hret, hready, hj, hdone⟩
  · have hp : toggle_pass s events = s := by
      unfold toggle_pass
      rw [if_pos (by rw [h0]; rfl)]
    rw [hp]
    exact ⟨⟨hph, Or.inl h0⟩, fun _ => ⟨hph, Or.inl h0⟩, fun _ _ => ⟨hph, Or.inl h0⟩⟩
  · have hsw := toggle_phase_switch s hph hret
    obtain ⟨hrd, hstep⟩ := toggle_switch_step s hph hret
    have hpass : toggle_pass s events =
        if (toggle_switch s).ret.isSome then toggle_switch s
        else toggle_iterate (toggle_switch s) events := by
      unfold toggle_pass
      rw [if_neg (by rw [hret]; simp), if_neg (by rw [hready]; decide),
        if_neg (by rw [hready]; decide)]
    rw [hpass] at hph2 ⊢
    have key : (toggle_switch s).ret = some 0 ∨
        ((toggle_switch s).ret = none ∧ (j : Int) + 1 ≤ (toggle_switch s).state) := by
      rcases hstep with ⟨hr, hst, hne, hnd⟩ | ⟨hr, hst⟩ | hr
      · refine Or.inr ⟨hr, ?_⟩
        rw [hst]
        by_cases hsj : s.state = j
        · rcases hdone hsj with hj0 | hd
          · exact absurd (by rw [hsj, hj0]; rfl) hne
          · rw [hd] at hnd
            exact absurd hnd (by decide)
        · omega
      · exact Or.inr ⟨hr, by omega⟩
      · exact Or.inl hr
    rcases key with hr | ⟨hr, hst⟩
    · rw [if_pos (by rw [hr]; rfl)] at hph2 ⊢
      exact ⟨⟨hsw, Or.inl hr⟩, fun _ => ⟨hsw, Or.inl hr⟩, fun _ _ => ⟨hsw, Or.inl hr⟩⟩
    · rw [if_neg (by rw [hr]; simp)] at hph2 ⊢
      obtain ⟨f1, f2, f3, -, f5, f6⟩ := toggle_iterate_frame events (toggle_switch s)
      have hrdy := toggle_iterate_ready events (toggle_switch s) hnf (hrd.trans hready)
      have hpo := toggle_phase_pa_op _ hsw hr (by omega)
      refine ⟨⟨hph2, Or.inr ⟨f5.trans hr, hrdy, by rw [f1]; omega, ?_⟩⟩, ?_, ?_⟩
      · intro hc
        rw [f1] at hc
        omega
      · intro hmem
        refine ⟨hph2, Or.inr ⟨f5.trans hr, hrdy, by rw [f1]; push_cast; omega, ?_⟩⟩
        intro hc
        rw [f1] at hc
        refine Or.inr ?_
        rw [f2]
        rcases hpo with ⟨⟨hop, hlen⟩, -⟩ | hd
        · have hpj : (toggle_switch s).pa_op = j := by
            push_cast at hc
            omega
          rw [hpj] at hlen ⊢
          exact toggle_iterate_completes events _ j hlen hmem
        · exact toggle_iterate_done_mono events _ _ hd
      · intro hj3 hnm
        refine ⟨hph2, Or.inr ⟨f5.trans hr, hrdy, ?_, ?_⟩⟩
        · rw [f1]
          subst hj3
          push_cast at hst ⊢
          omega
        · intro _
          refine Or.inr ?_
          rw [f2]
          rcases hpo with ⟨⟨hop, hlen⟩, hmv⟩ | hd
          · have hbound := (toggle_phase_outstanding _ hsw).2.2.2.2.1
            have hp3 : (toggle_switch s).pa_op = 3 := by
              subst hj3
              push_cast at hst
              omega
            rw [f3] at hnm
            exact absurd (hmv hp3) hnm
          · exact toggle_iterate_done_mono events _ _ hd

theorem toggle_level_run (j : Nat) (more : List (List ToggleEvent)) (s : Toggle)
    (h : toggle_level j s) (hnf : ∀ ev ∈ more, no_failure ev) :
    toggle_level j (more.foldl toggle_pass s) := by
  induction more generalizing s with
  | nil => exact h
  | cons ev rest ih =>
    simp only [List.foldl_cons]
    exact ih _ (toggle_level_pass j s ev h (hnf ev (List.mem_cons_self _ _))).1
      fun e he => hnf e (List.mem_cons_of_mem _ he)

theorem toggle_level_segment (j : Nat) (segment : List (List ToggleEvent)) (s : Toggle)
    (h : toggle_level j s) (hnf : ∀ ev ∈ segment, no_failure ev)
    (hco : completes j segment) : toggle_level (j + 1) (segment.foldl toggle_pass s) := by
  induction segment generalizing s with
  | nil =>
    obtain ⟨ev, hev, -⟩ := hco
    simp at hev
  | cons ev rest ih =>
    simp only [List.foldl_cons]
    have hp := toggle_level_pass j s ev h (hnf ev (List.mem_cons_self _ _))
    have hnf2 : ∀ e ∈ rest, no_failure e := fun e he => hnf e (List.mem_cons_of_mem _ he)
    obtain ⟨e, he, hmem⟩ := hco
    rcases List.mem_cons.mp he with h1 | h1
    · subst h1
      exact toggle_level_run (j + 1) rest _ (hp.2.1 hmem) hnf2
    · exact ih _ hp.1 hnf2 ⟨e, h1, hmem⟩

theorem toggle_level_segment_unresolved (segment : List (List ToggleEvent)) (s : Toggle)
    (h : toggle_level 3 s) (hnf : ∀ ev ∈ segment, no_failure ev) (hne : segment ≠ [])
    (hnm : ¬ move_issued (segment.foldl toggle_pass s).calls) :
    toggle_level 4 (segment.foldl toggle_pass s) := by
  cases segment with
  | nil => exact absurd rfl hne
  | cons ev rest =>
    simp only [List.foldl_cons] at hnm ⊢
    have hp := toggle_level_pass 3 s ev h (hnf ev (List.mem_cons_self _ _))
    have hnf2 : ∀ e ∈ rest, no_failure e := fun e he => hnf e (List.mem_cons_of_mem _ he)
    have hnm1 : ¬ move_issued (toggle_pass s ev).calls :=
      fun hc => hnm (move_issued_run rest _ hc)
    exact toggle_level_run 4 rest _ (hp.2.2 rfl hnm1) hnf2

theorem toggle_iterate_ready01 (events : List ToggleEvent) (s : Toggle)
    (hnf : no_failure events) (hready : s.pa_ready = 0 ∨ s.pa_ready = 1) :
    ((toggle_iterate s events).pa_ready = 0 ∨ (toggle_iterate s events).pa_ready = 1) ∧
      (ToggleEvent.state PA_CONTEXT_READY ∈ events → (toggle_iterate s events).pa_ready = 1) := by
  induction events generalizing s with
  | nil => exact ⟨hready, fun hc => by simp at hc⟩
  | cons e es ih =>
    simp only [toggle_iterate, List.foldl_cons]
    have hnf2 : no_failure es :=
      ⟨fun hc => hnf.1 (List.mem_cons_of_mem _ hc), fun hc => hnf.2 (List.mem_cons_of_mem _ hc)⟩
    by_cases he : e = ToggleEvent.state PA_CONTEXT_READY
    · subst he
      have h1 : (toggle_dispatch s (ToggleEvent.state PA_CONTEXT_READY)).pa_ready = 1 := rfl
      have h2 := toggle_iterate_ready es _ hnf2 h1
      simp only [toggle_iterate] at h2
      exact ⟨Or.inr h2, fun _ => h2⟩
    · have h1 : (toggle_dispatch s e).pa_ready = 0 ∨ (toggle_dispatch s e).pa_ready = 1 := by
        cases e with
        | state st =>
          cases st with
          | PA_CONTEXT_FAILED => exact absurd (List.mem_cons_self _ _) hnf.1
          | PA_CONTEXT_TERMINATED => exact absurd (List.mem_cons_self _ _) hnf.2
          | PA_CONTEXT_READY => exact absurd rfl he
          | _ => exact hready
        | _ => exact hready
      obtain ⟨h2, h3⟩ := ih _ hnf2 h1
      simp only [toggle_iterate] at h2 h3
      refine ⟨h2, fun hmem => h3 ?_⟩
      rcases List.mem_cons.mp hmem with hx | hx
      · exact absurd hx.symm he
      · exact hx

theorem toggle_level_zero (s : Toggle) (h : TogglePhase s) (hret : s.ret = none)
    (hready : s.pa_ready = 1) : toggle_level 0 s :=
  ⟨h, Or.inr ⟨hret, hready, (toggle_phase_outstanding s h).2.2.2.1, fun _ => Or.inl rfl⟩⟩

theorem toggle_connecting_pass (s : Toggle) (events : List ToggleEvent)
    (h : toggle_connecting s) (hnf : no_failure events) :
    toggle_connecting (toggle_pass s events) ∧
      (ToggleEvent.state PA_CONTEXT_READY ∈ events → toggle_level 0 (toggle_pass s events)) := by
  obtain ⟨hph, hcase⟩ := h
  have hph2 := toggle_phase_pass s events hph
  have of_level : toggle_level 0 (toggle_pass s events) →
      toggle_connecting (toggle_pass s events) := by
    rintro ⟨h1, h2⟩
    rcases h2 with h0 | ⟨hr, hrd, -, -⟩
    · exact ⟨h1, Or.inl h0⟩
    · exact ⟨h1, Or.inr ⟨hr, Or.inr hrd⟩⟩
  rcases hcase with h0 | ⟨hret, hrd | hrd⟩
  · have hp : toggle_pass s events = s := by
      unfold toggle_pass
      rw [if_pos (by rw [h0]; rfl)]
    rw [hp]
    exact ⟨⟨hph, Or.inl h0⟩, fun _ => ⟨hph, Or.inl h0⟩⟩
  · have hp : toggle_pass s events = toggle_iterate s events := by
      unfold toggle_pass
      rw [if_neg (by rw [hret]; simp), if_pos hrd]
    rw [hp] at hph2 ⊢
    obtain ⟨h1, h2⟩ := toggle_iterate_ready01 events s hnf (Or.inl hrd)
    have hr : (toggle_iterate s events).ret = none :=
      (toggle_iterate_frame events s).2.2.2.2.1.trans hret
    exact ⟨⟨hph2, Or.inr ⟨hr, h1⟩⟩, fun hmem => toggle_level_zero _ hph2 hr (h2 hmem)⟩
  · have hl := (toggle_level_pass 0 s events (toggle_level_zero s hph hret hrd) hnf).1
    exact ⟨of_level hl, fun _ => hl⟩

theorem toggle_connecting_segment (segment : List (List ToggleEvent)) (s : Toggle)
    (h : toggle_connecting s) (hnf : ∀ ev ∈ segment, no_failure ev)
    (hrd : becomes_ready segment) : toggle_level 0 (segment.foldl toggle_pass s) := by
  induction segment generalizing s with
  | nil =>
    obtain ⟨ev, hev, -⟩ := hrd
    simp at hev
  | cons ev rest ih =>
    simp only [List.foldl_cons]
    have hp := toggle_connecting_pass s ev h (hnf ev (List.mem_cons_self _ _))
    have hnf2 : ∀ e ∈ rest, no_failure e := fun e he => hnf e (List.mem_cons_of_mem _ he)
    obtain ⟨e, he, hmem⟩ := hrd
    rcases List.mem_cons.mp he with h1 | h1
    · subst h1
      exact toggle_level_run 0 rest _ (hp.2 hmem) hnf2
    · exact ih _ hp.1 hnf2 ⟨e, h1, hmem⟩

theorem toggle_level_four_returns (segment : List (List ToggleEvent)) (s : Toggle)
    (h : toggle_level 4 s) (hne : segment ≠ []) :
    (segment.foldl toggle_pass s).ret = some 0 := by
  cases segment with
  | nil => exact absurd rfl hne
  | cons ev rest =>
    simp only [List.foldl_cons]
    have hfin : (toggle_pass s ev).ret = some 0 := by
      obtain ⟨hph, hcase⟩ := h
      rcases hcase with h0 | ⟨hret, hready, hj, hdone⟩
      · unfold toggle_pass
        rw [if_pos (by rw [h0]; rfl)]
        exact h0
      · have hb := (toggle_phase_outstanding s hph).2.2.2.2.1
        have hs4 : s.state = 4 := by
          push_cast at hj
          omega
        have hd : operation_done s.ops s.pa_op = true := by
          rcases hdone (by rw [hs4]; rfl) with hc | hc
          · exact absurd hc (by decide)
          · exact hc
        have hsw := toggle_phase_switch s hph hret
        have hb2 := (toggle_phase_outstanding _ hsw).2.2.2.2.1
        obtain ⟨-, hstep⟩ := toggle_switch_step s hph hret
        have hr : (toggle_switch s).ret = some 0 := by
          rcases hstep with ⟨-, -, -, hnd⟩ | ⟨-, hst⟩ | hr
          · rw [hd] at hnd
            exact absurd hnd (by decide)
          · omega
          · exact hr
        unfold toggle_pass
        rw [if_neg (by rw [hret]; simp), if_neg (by rw [hready]; decide),
          if_neg (by rw [hready]; decide), if_pos (by rw [hr]; rfl)]
        exact hr
    have hstay : ∀ (more : List (List ToggleEvent)) (t : Toggle), t.ret = some 0 →
        (more.foldl toggle_pass t).ret = some 0 := by
      intro more
      induction more with
      | nil => exact fun t ht => ht
      | cons e es ih =>
        intro t ht
        simp only [List.foldl_cons]
        have hp : toggle_pass t e = t := by
          unfold toggle_pass
          rw [if_pos (by rw [ht]; rfl)]
        rw [hp]
        exact ih t ht
    exact hstay rest _ hfin

/-- Every operation completes eventually: when the connection becomes ready during
`connecting`, operation `k` completes during `segment k` and a pass follows, the run
returns 0.  The move need not complete when none was issued. -/
theorem toggle_returns_eventually (pid : Int) (junk : pa_target)
    (connecting s0 s1 s2 s3 last : List (List ToggleEvent))
    (hnf : ∀ ev ∈ connecting ++ s0 ++ s1 ++ s2 ++ s3 ++ last, no_failure ev)
    (hrd : becomes_ready connecting) (h0 : completes 0 s0) (h1 : completes 1 s1)
    (h2 : completes 2 s2)
    (h3 : completes 3 s3 ∨
      (s3 ≠ [] ∧ ¬ move_issued
        (pa_toggle_pid pid junk (connecting ++ s0 ++ s1 ++ s2 ++ s3 ++ last)).calls))
    (hlast : last ≠ []) :
    (pa_toggle_pid pid junk (connecting ++ s0 ++ s1 ++ s2 ++ s3 ++ last)).ret = some 0 := by
  have hsplit : pa_toggle_pid pid junk (connecting ++ s0 ++ s1 ++ s2 ++ s3 ++ last) =
      last.foldl toggle_pass (s3.foldl toggle_pass (s2.foldl toggle_pass
        (s1.foldl toggle_pass (s0.foldl toggle_pass
          (connecting.foldl toggle_pass (toggle_init pid junk)))))) := by
    simp [pa_toggle_pid, List.foldl_append]
  rw [hsplit] at h3 ⊢
  have hn : ∀ (seg : List (List ToggleEvent)),
      (∀ ev ∈ seg, ev ∈ connecting ++ s0 ++ s1 ++ s2 ++ s3 ++ last) →
      ∀ ev ∈ seg, no_failure ev := fun seg hs ev hev => hnf ev (hs ev hev)
  have hinit : toggle_connecting (toggle_init pid junk) :=
    ⟨TogglePhase.start _ _ _ _, Or.inr ⟨rfl, Or.inl rfl⟩⟩
  have l0 := toggle_connecting_segment connecting _ hinit
    (hn connecting fun ev hev => by simp [hev]) hrd
  have l1 := toggle_level_segment 0 s0 _ l0 (hn s0 fun ev hev => by simp [hev]) h0
  have l2 := toggle_level_segment 1 s1 _ l1 (hn s1 fun ev hev => by simp [hev]) h1
  have l3 := toggle_level_segment 2 s2 _ l2 (hn s2 fun ev hev => by simp [hev]) h2
  have l4 : toggle_level 4 (s3.foldl toggle_pass (s2.foldl toggle_pass
      (s1.foldl toggle_pass (s0.foldl toggle_pass
        (connecting.foldl toggle_pass (toggle_init pid junk)))))) := by
    rcases h3 with h3 | ⟨hne, hnm⟩
    · exact toggle_level_segment 3 s3 _ l3 (hn s3 fun ev hev => by simp [hev]) h3
    · exact toggle_level_segment_unresolved s3 _ l3 (hn s3 fun ev hev => by simp [hev]) hne
        fun hc => hnm (move_issued_run last _ hc)
  exact toggle_level_four_returns last _ l4 hlast

theorem toggle_phase_requests_exact (s : Toggle) (h : TogglePhase s) :
    (s.state = 0 ∧ requests s.calls = []) ∨
    (s.state = 1 ∧ requests s.calls = [Call.get_sink_info_list 0]) ∨
    (s.state = 2 ∧ requests s.calls =
      [Call.get_sink_info_list 0, Call.get_client_info_list 1]) ∨
    (s.state = 3 ∧ requests s.calls =
      [Call.get_sink_info_list 0, Call.get_client_info_list 1,
       Call.get_sink_input_info_list 2]) ∨
    (s.state = 4 ∧
      (requests s.calls =
          [Call.get_sink_info_list 0, Call.get_client_info_list 1,
           Call.get_sink_input_info_list 2] ∨
        ∃ i k, requests s.calls =
          [Call.get_sink_info_list 0, Call.get_client_info_list 1,
           Call.get_sink_input_info_list 2, Call.move_sink_input_by_index i k 3])) := by
  induction h with
  | start rd t p o => exact Or.inl ⟨rfl, rfl⟩
  | sinks rd t o a => exact Or.inr (Or.inl ⟨rfl, rfl⟩)
  | clients rd t o a => exact Or.inr (Or.inr (Or.inl ⟨rfl, rfl⟩))
  | streams rd t o a => exact Or.inr (Or.inr (Or.inr (Or.inl ⟨rfl, rfl⟩)))
  | unresolved rd t o => exact Or.inr (Or.inr (Or.inr (Or.inr ⟨rfl, Or.inl rfl⟩)))
  | moving rd t o a i k =>
    exact Or.inr (Or.inr (Or.inr (Or.inr ⟨rfl, Or.inr ⟨i, k, rfl⟩⟩)))
  | returned_unresolved rd t o => exact Or.inr (Or.inr (Or.inr (Or.inr ⟨rfl, Or.inl rfl⟩)))
  | returned_moved rd t o i k =>
    exact Or.inr (Or.inr (Or.inr (Or.inr ⟨rfl, Or.inr ⟨i, k, rfl⟩⟩)))
  | failed s o h hr hrd ih =>
    have hreq : requests (s.calls ++ disconnect_calls) = requests s.calls := by
      rw [requests_append, requests_disconnect, List.append_nil]
    show (s.state = 0 ∧ requests (s.calls ++ disconnect_calls) = []) ∨ _
    rw [hreq]
    exact ih

theorem toggle_phase_returned_calls (s : Toggle) (h : TogglePhase s) (hret : s.ret = some 0) :
    s.calls = connect_calls ++
        [Call.get_sink_info_list 0, Call.operation_unref 0, Call.get_client_info_list 1,
         Call.operation_unref 1, Call.get_sink_input_info_list 2, Call.operation_unref 2] ++
        disconnect_calls ∨
      ∃ i k, s.calls = connect_calls ++
        [Call.get_sink_info_list 0, Call.operation_unref 0, Call.get_client_info_list 1,
         Call.operation_unref 1, Call.get_sink_input_info_list 2, Call.operation_unref 2,
         Call.move_sink_input_by_index i k 3, Call.operation_unref 3] ++ disconnect_calls := by
  cases h with
  | returned_unresolved rd t o => exact Or.inl rfl
  | returned_moved rd t o i k => exact Or.inr ⟨i, k, rfl⟩
  | failed s o h hr hrd => simp at hret
  | _ => simp at hret

theorem toggle_pass_unresolved (s : Toggle) (events : List ToggleEvent)
    (hret : s.ret = none) (hready : s.pa_ready = 1) (hstate : s.state = 3)
    (hdone : operation_done s.ops s.pa_op = true) (hfound : s.target.stream_found = 0) :
    (toggle_pass s events).calls = s.calls ∧
      (toggle_pass s events).out = s.out ++ [Out.err "No Stream found for given pid\n"] ∧
      (toggle_pass s events).state = 4 ∧ (toggle_pass s events).ret = none := by
  have hsw : toggle_switch s = toggle_resolve s := by
    simp [toggle_switch, hstate, hdone]
  have hres : toggle_resolve s =
      { s with
        out := s.out ++ [Out.err "No Stream found for given pid\n"]
        state := s.state + 1 } := by
    unfold toggle_resolve
    rw [if_neg (by rw [hfound]; simp)]
  have hp : toggle_pass s events = toggle_iterate (toggle_resolve s) events := by
    simp [toggle_pass, hret, hready, hsw, hres]
  obtain ⟨f1, -, f3, f4, f5, -⟩ := toggle_iterate_frame events (toggle_resolve s)
  rw [hp, f1, f3, f4, f5, hres]
  refine ⟨rfl, rfl, ?_, hret⟩
  show s.state + 1 = 4
  omega

theorem toggle_pass_progress (s : Toggle) (events : List ToggleEvent) (h : TogglePhase s)
    (hret : s.ret = none) (hready : s.pa_ready = 1)
    (hgo : s.state = 0 ∨ operation_done s.ops s.pa_op = true) :
    (toggle_pass s events).ret = some 0 ∨
      ((toggle_pass s events).ret = none ∧ (toggle_pass s events).state = s.state + 1) := by
  obtain ⟨-, hstep⟩ := toggle_switch_step s h hret
  have hpass : toggle_pass s events =
      if (toggle_switch s).ret.isSome then toggle_switch s
      else toggle_iterate (toggle_switch s) events := by
    unfold toggle_pass
    rw [if_neg (by rw [hret]; simp), if_neg (by rw [hready]; decide),
      if_neg (by rw [hready]; decide)]
  rw [hpass]
  rcases hstep with ⟨-, -, hne, hnd⟩ | ⟨hr, hst⟩ | hr
  · rcases hgo with hg | hg
    · exact absurd hg hne
    · rw [hg] at hnd
      exact absurd hnd (by decide)
  · rw [if_neg (by rw [hr]; simp)]
    obtain ⟨f1, -, -, -, f5, -⟩ := toggle_iterate_frame events (toggle_switch s)
    exact Or.inr ⟨f5.trans hr, f1.trans hst⟩
  · rw [if_pos (by rw [hr]; rfl)]
    exact Or.inl hr

theorem toggle_pass_move (s : Toggle) (events : List ToggleEvent) (h : TogglePhase s)
    (hret : s.ret = none) (hready : s.pa_ready = 1) (hstate : s.state = 3)
    (hdone : operation_done s.ops s.pa_op = true) (hfound : s.target.stream_found ≠ 0) :
    requests (toggle_pass s events).calls = requests s.calls ++
      [Call.move_sink_input_by_index (to_uint32 s.target.stream_index)
        (to_uint32 (next_sink s.target.stream_sink s.target.num_sinks)) 3] := by
  have hsw : toggle_switch s = toggle_resolve s := by
    simp [toggle_switch, hstate, hdone]
  have hres : (toggle_resolve s).ret = none ∧ (toggle_resolve s).calls = s.calls ++
      [Call.operation_unref s.pa_op,
       Call.move_sink_input_by_index (to_uint32 s.target.stream_index)
        (to_uint32 (next_sink s.target.stream_sink s.target.num_sinks)) s.ops.length] := by
    simp [toggle_resolve, hfound, hret]
  have hp : toggle_pass s events = toggle_iterate (toggle_resolve s) events := by
    simp [toggle_pass, hret, hready, hsw, hres.1]
  have hlen : s.ops.length = 3 := by
    cases h with
    | streams rd t o a => rfl
    | failed s o h hr hrd => simp at hret
    | _ => simp at hstate
  rw [hp, (toggle_iterate_frame events _).2.2.1, hres.2, hlen, requests_append]
  rfl

theorem starts_with_iff (hay needle : List Char) :
    starts_with hay needle = true ↔ needle <+: hay := by
  induction hay generalizing needle with
  | nil =>
    cases needle with
    | nil => simp [starts_with]
    | cons n ns => simp [starts_with]
  | cons h hs ih =>
    cases needle with
    | nil => simp [starts_with]
    | cons n ns =>
      simp only [starts_with, Bool.and_eq_true, beq_iff_eq, ih, List.cons_prefix_cons]
      constructor
      · rintro ⟨h1, h2⟩
        exact ⟨h1.symm, h2⟩
      · rintro ⟨h1, h2⟩
        exact ⟨h1.symm, h2⟩

theorem strstr_isSome_iff (hay needle : List Char) :
    (strstr hay needle).isSome = true ↔ needle <:+: hay := by
  induction hay with
  | nil =>
    cases needle with
    | nil => simp [strstr]
    | cons n ns => simp [strstr]
  | cons h hs ih =>
    unfold strstr
    by_cases hp : starts_with (h :: hs) needle = true
    · rw [if_pos hp]
      simp only [Option.isSome_some, true_iff]
      exact ((starts_with_iff _ _).mp hp).isInfix
    · rw [if_neg hp, ih, List.infix_cons_iff]
      constructor
      · exact fun hx => Or.inr hx
      · rintro (hx | hx)
        · exact absurd ((starts_with_iff _ _).mpr hx) hp
        · exact hx

theorem source_selected_eq_registers (filter : Option (List Char)) (i : pa_source_info)
    (last : Int) (hlast : last = 0) : source_selected filter i = registers filter (i, last) := by
  unfold source_selected registers
  cases filter with
  | none => simp [hlast]
  | some f =>
    have h := strstr_isSome_iff i.description f
    simp only [hlast, decide_True, Bool.true_and]
    congr 1
    by_cases hx : f <:+: i.description
    · simp [hx, h.mpr hx]
    · have : ¬ (strstr i.description f).isSome = true := fun hc => hx (h.mp hc)
      simp [hx, this]

theorem pa_source_cb_eq (stats : stream_stats) (e : pa_source_info × Int) :
    pa_source_cb stats stats.head.length e.1 e.2 =
      if registers stats.filter e then
        { stats with
          head := new_monitored_stream stats.head.length e :: stats.head
          count := to_int (stats.count + 1) }
      else stats := by
  unfold pa_source_cb
  by_cases hl : e.2 = 0
  · rw [if_neg (by simpa using hl), source_selected_eq_registers stats.filter e.1 e.2 hl]
    rfl
  · rw [if_pos hl]
    have : registers stats.filter e = false := by simp [registers, hl]
    rw [this]
    rfl

theorem source_pass_head (answers : List (pa_source_info × Int)) (stats : stream_stats) :
    (source_pass stats answers).filter = stats.filter ∧
    (source_pass stats answers).head =
      (((answers.filter (registers stats.filter)).enumFrom stats.head.length).map
        fun p => new_monitored_stream p.1 p.2).reverse ++ stats.head := by
  induction answers generalizing stats with
  | nil => simp [source_pass]
  | cons e rest ih =>
    have hstep : source_pass stats (e :: rest) =
        source_pass (pa_source_cb stats stats.head.length e.1 e.2) rest := rfl
    rw [hstep, pa_source_cb_eq]
    by_cases hr : registers stats.filter e = true
    · rw [if_pos hr]
      obtain ⟨h1, h2⟩ := ih { stats with
          head := new_monitored_stream stats.head.length e :: stats.head
          count := to_int (stats.count + 1) }
      refine ⟨h1, ?_⟩
      rw [h2]
      simp [List.filter_cons, hr, List.enumFrom_cons]
    · rw [if_neg hr]
      obtain ⟨h1, h2⟩ := ih stats
      refine ⟨h1, ?_⟩
      rw [h2]
      simp [List.filter_cons, hr]

theorem registers_iff (filter : Option (List Char)) (e : pa_source_info × Int) :
    registers filter e = true ↔
      e.2 = 0 ∧ e.1.monitor_of_sink_name ≠ none ∧
        ∀ f, filter = some f → f <:+: e.1.description := by
  unfold registers
  cases filter with
  | none => simp [Option.isSome_iff_ne_none]
  | some f => simp [Option.isSome_iff_ne_none, and_assoc]

/-- C3 (as amended): source registration.  For every list of answers to the source list
request and every optional filter, `pa_source_cb` creates a monitored stream, with
amplitude -1, for exactly the answers that are not the end-of-list call, are a monitor of
some sink and whose description contains the filter as a substring exactly as written
(every monitor source without a filter); each is prepended, so the registry holds them
in reverse order of arrival.  With descriptions "Game Audio", "Voice Chat" and "Browser"
and the filter "Voice" exactly one source is registered, "Voice Chat". -/
theorem source_registration (filter : Option (List Char))
    (answers : List (pa_source_info × Int)) :
    (source_pass ⟨[], 0, filter⟩ answers).head.reverse =
        ((answers.filter (registers filter)).enum.map fun p => new_monitored_stream p.1 p.2) ∧
      (∀ e : pa_source_info × Int, registers filter e = true ↔
        e.2 = 0 ∧ e.1.monitor_of_sink_name ≠ none ∧
          ∀ f, filter = some f → f <:+: e.1.description) ∧
      (∀ a ∈ (source_pass ⟨[], 0, filter⟩ answers).head, a.amp = -1) ∧
      (∀ (stats : stream_stats) (e : pa_source_info × Int),
        (pa_source_cb stats stats.head.length e.1 e.2).head =
          if registers stats.filter e then new_monitored_stream stats.head.length e :: stats.head
          else stats.head) ∧
      (source_pass ⟨[], 0, some "Voice".toList⟩
        [(monitor_source 0 "Game Audio", 0), (monitor_source 1 "Voice Chat", 0),
         (monitor_source 2 "Browser", 0), (monitor_source 2 "Browser", 1)]).head =
        [new_monitored_stream 0 (monitor_source 1 "Voice Chat", 0)] := by
  have hhead := (source_pass_head answers ⟨[], 0, filter⟩).2
  simp only [List.length_nil, List.append_nil] at hhead
  refine ⟨?_, registers_iff filter, ?_, ?_, ?_⟩
  · rw [hhead, List.reverse_reverse]
    rfl
  · intro a ha
    rw [hhead] at ha
    simp only [List.mem_reverse, List.mem_map] at ha
    obtain ⟨p, -, rfl⟩ := ha
    rfl
  · intro stats e
    rw [pa_source_cb_eq]
    split_ifs <;> rfl
  · decide

/-- C3 as stated fails: the monitor source "Voice Chat" contains the filter "voice" when
case is ignored, yet `pa_source_cb` does not register it. -/
theorem source_registration_counterexample :
    spec_registers (some "voice".toList) (monitor_source 1 "Voice Chat", 0) ∧
      (source_pass ⟨[], 0, some "voice".toList⟩ [(monitor_source 1 "Voice Chat", 0)]).head
        = [] := by
  refine ⟨⟨rfl, by decide, ?_⟩, by decide⟩
  intro f hf
  cases hf
  unfold contains_ignoring_case
  decide

/-! ## Inputs on which the code departs from its documentation -/

/-- C1: `pa_read_cb` on the prior peak -1 and a two-byte buffer holding the sample -32768
stores -32768, which is below the prior peak and is not the magnitude of the sample. -/
theorem pa_read_cb_lowest_sample :
    (pa_read_cb { stream := 0, amp := -1, source_name := [], source_index := 0 }
      (some [0, 128])).amp = -32768 ∧
    short_at [0, 128] 0 = -32768 ∧
    ¬ ((-1 : Int) ≤ (pa_read_cb { stream := 0, amp := -1, source_name := [], source_index := 0 }
      (some [0, 128])).amp) := by
  decide

/-- C7: a run of `pa_stat` reaches a state in which the amplitude of a monitored source is
-32768, outside `[-1, 32767]`: one sample -32768 delivered to `pa_read_cb`. -/
theorem pa_stat_amplitude_out_of_range :
    (pa_stat 3 none 1 0 loud_script).ret = none ∧
    (pa_stat 3 none 1 0 loud_script).streams.head.map (fun a => a.amp) = [-32768] ∧
    ¬ ((-1 : Int) ≤ -32768) := by
  decide

/-- C5: with no client carrying the pid `1234` and `client_index` starting at 7, the
stream of client 7 is taken for the target: `stream_found` is set and a move request for
that stream is issued. -/
theorem pa_toggle_pid_moves_without_match :
    (pa_toggle_pid 1234 (junk_target 7) no_match_script).target.stream_found = 1 ∧
    requests (pa_toggle_pid 1234 (junk_target 7) no_match_script).calls =
      [Call.get_sink_info_list 0, Call.get_client_info_list 1,
       Call.get_sink_input_info_list 2, Call.move_sink_input_by_index 10 1 3] ∧
    (pa_toggle_pid 1234 (junk_target 7) no_match_script).ret = some 0 ∧
    (pa_toggle_pid 1234 (junk_target 8) no_match_script).target.stream_found = 0 := by
  decide

/-- C9: when the connection fails after a source was registered and while the source
list operation is running, `pa_stat` returns 1 without releasing the operation, the list
node, the stream and the name; `pa_toggle_pid` likewise returns -1 holding its
operation.  Nothing is released twice, and the runs that end normally leak nothing. -/
theorem failure_path_leaks :
    (pa_stat 3 none 1 0 dropped_script).ret = some 1 ∧
    leaked (pa_stat 3 none 1 0 dropped_script).calls =
      [Handle.operation 0, Handle.node 0, Handle.stream 0, Handle.name 0] ∧
    released_twice (pa_stat 3 none 1 0 dropped_script).calls = [] ∧
    (pa_toggle_pid 1234 (junk_target 0)
      [[ToggleEvent.state PA_CONTEXT_READY], [ToggleEvent.state PA_CONTEXT_FAILED], []]).ret
      = some (-1) ∧
    leaked (pa_toggle_pid 1234 (junk_target 0)
      [[ToggleEvent.state PA_CONTEXT_READY], [ToggleEvent.state PA_CONTEXT_FAILED], []]).calls
      = [Handle.operation 0] ∧
    leaked (pa_toggle_pid 1234 (junk_target 0) (example_script 1)).calls = [] ∧
    leaked (pa_stat 1 none 1 0
      (loud_script ++ [{ time1 := 1, time2 := 1, events := [] }])).calls = [] := by
  decide

/-! ## The amplitude tracker away from the sample -32768 -/

theorem peak_step_eq_max (m s : Int) (hm : -1 ≤ m) (hs : -32767 ≤ s) (hs1 : s ≤ 32767) :
    peak_step m s = max m |s| := by
  unfold peak_step
  have hw : to_short (-s) = -s := to_short_of_range (by omega) (by omega)
  rw [hw]
  rcases abs_cases s with ⟨h1, h2⟩ | ⟨h1, h2⟩ <;> split_ifs <;> omega

theorem peak_fold_eq_max (samples : List Int) (m : Int) (hm : -1 ≤ m)
    (hall : ∀ s ∈ samples, -32767 ≤ s ∧ s ≤ 32767) :
    samples.foldl peak_step m = samples.foldl (fun acc s => max acc |s|) m ∧
      m ≤ samples.foldl peak_step m := by
  induction samples generalizing m with
  | nil => simp
  | cons s rest ih =>
    have hs := hall s (List.mem_cons_self _ _)
    have hstep := peak_step_eq_max m s hm hs.1 hs.2
    have hge : m ≤ peak_step m s := by rw [hstep]; exact le_max_left _ _
    obtain ⟨h1, h2⟩ := ih (peak_step m s) (by omega)
      fun x hx => hall x (List.mem_cons_of_mem _ hx)
    simp only [List.foldl_cons]
    refine ⟨?_, by omega⟩
    rw [h1, hstep]

/-- The amplitude tracker is correct on every buffer without the sample -32768: from a
prior peak of at least -1 the stored peak is the maximum of the prior peak and the
magnitudes of the samples, and is not below the prior peak. -/
theorem pa_read_cb_peak (watch : monitored_stream) (data : List Nat) (hm : -1 ≤ watch.amp)
    (hall : ∀ pos, pos < data.length / 2 → short_at data pos ≠ -32768) :
    (pa_read_cb watch (some data)).amp =
        ((List.range (data.length / 2)).map (short_at data)).foldl
          (fun acc s => max acc |s|) watch.amp ∧
      watch.amp ≤ (pa_read_cb watch (some data)).amp := by
  have hfold : (pa_read_cb watch (some data)).amp =
      ((List.range (data.length / 2)).map (short_at data)).foldl peak_step watch.amp := by
    simp [pa_read_cb, List.foldl_map]
  have hrange : ∀ s ∈ (List.range (data.length / 2)).map (short_at data),
      -32767 ≤ s ∧ s ≤ 32767 := by
    intro s hs
    obtain ⟨pos, hpos, rfl⟩ := List.mem_map.mp hs
    have h1 := hall pos (List.mem_range.mp hpos)
    have h2 : -32768 ≤ short_at data pos ∧ short_at data pos ≤ 32767 := by
      unfold short_at
      exact to_short_range _
    omega
  have h := peak_fold_eq_max _ watch.amp hm hrange
  rw [hfold]
  exact h

/-! ## The sampling loop of `pa_stat` -/

theorem tick_lines_append (a b : List Out) : tick_lines (a ++ b) = tick_lines a + tick_lines b := by
  unfold tick_lines
  exact List.count_append _ _ _

theorem printed_append (a b : List Out) : printed (a ++ b) = printed a ++ printed b := by
  unfold printed
  exact List.filter_append a b

theorem tick_lines_read_out (peek : Option (List Nat)) : tick_lines (pa_read_cb_out peek) = 0 := by
  cases peek <;> rfl

theorem printed_read_out (peek : Option (List Nat)) : printed (pa_read_cb_out peek) = [] := by
  cases peek <;> rfl

theorem tick_lines_header (head : List monitored_stream) : tick_lines (header_lines head) = 0 := by
  unfold tick_lines
  rw [List.count_eq_zero]
  simp [header_lines]

theorem tick_lines_fields (head : List monitored_stream) :
    tick_lines (head.map fun a => pretty_print a.amp) = 0 := by
  unfold tick_lines
  rw [List.count_eq_zero]
  simp only [List.mem_map, not_exists, not_and]
  intro a _ h
  unfold pretty_print at h
  split_ifs at h

theorem printed_fields (head : List monitored_stream) :
    printed (head.map fun a => pretty_print a.amp) = head.map fun a => pretty_print a.amp := by
  unfold printed
  rw [List.filter_eq_self]
  simp only [List.mem_map, forall_exists_index, and_imp]
  intro o a _ h
  subst h
  unfold pretty_print
  split_ifs <;> rfl

theorem stat_dispatch_frame (s : Stat) (e : StatEvent) :
    (stat_dispatch s e).state = s.state ∧ (stat_dispatch s e).samples = s.samples ∧
    (stat_dispatch s e).now = s.now ∧ (stat_dispatch s e).ret = s.ret ∧
    (stat_dispatch s e).pa_op = s.pa_op ∧
    (stat_dispatch s e).ops.length = s.ops.length ∧
    tick_lines (stat_dispatch s e).out = tick_lines s.out ∧
    printed (stat_dispatch s e).out = printed s.out := by
  cases e with
  | state st => simp [stat_dispatch]
  | source i last => simp [stat_dispatch]
  | read w peek =>
    simp only [stat_dispatch]
    split
    · simp
    · simp [tick_lines_append, printed_append, tick_lines_read_out, printed_read_out]
  | op_done op => simp [stat_dispatch]

theorem stat_iterate_frame (events : List StatEvent) (s : Stat) :
    (stat_iterate s events).state = s.state ∧ (stat_iterate s events).samples = s.samples ∧
    (stat_iterate s events).now = s.now ∧ (stat_iterate s events).ret = s.ret ∧
    (stat_iterate s events).pa_op = s.pa_op ∧
    (stat_iterate s events).ops.length = s.ops.length ∧
    tick_lines (stat_iterate s events).out = tick_lines s.out ∧
    printed (stat_iterate s events).out = printed s.out := by
  induction events generalizing s with
  | nil => simp [stat_iterate]
  | cons e es ih =>
    obtain ⟨a1, a2, a3, a4, a5, a6, a7, a8⟩ := stat_dispatch_frame s e
    have h2 := ih (stat_dispatch s e)
    simp only [stat_iterate, List.foldl_cons] at h2 ⊢
    obtain ⟨b1, b2, b3, b4, b5, b6, b7, b8⟩ := h2
    exact ⟨b1.trans a1, b2.trans a2, b3.trans a3, b4.trans a4, b5.trans a5, b6.trans a6,
      b7.trans a7, b8.trans a8⟩

theorem pa_state_cb_range (st : pa_context_state_t) (r : Int)
    (h : r = 0 ∨ r = 1 ∨ r = 2) :
    pa_state_cb st r = 0 ∨ pa_state_cb st r = 1 ∨ pa_state_cb st r = 2 := by
  cases st <;> simp [pa_state_cb, h]

theorem stat_dispatch_ready (s : Stat) (e : StatEvent)
    (h : s.pa_ready = 0 ∨ s.pa_ready = 1 ∨ s.pa_ready = 2) :
    (stat_dispatch s e).pa_ready = 0 ∨ (stat_dispatch s e).pa_ready = 1 ∨
      (stat_dispatch s e).pa_ready = 2 := by
  cases e with
  | state st => exact pa_state_cb_range st _ h
  | source i last => exact h
  | read w peek =>
    simp only [stat_dispatch]
    split <;> exact h
  | op_done op => exact h

theorem stat_iterate_ready (events : List StatEvent) (s : Stat)
    (h : s.pa_ready = 0 ∨ s.pa_ready = 1 ∨ s.pa_ready = 2) :
    (stat_iterate s events).pa_ready = 0 ∨ (stat_iterate s events).pa_ready = 1 ∨
      (stat_iterate s events).pa_ready = 2 := by
  induction events generalizing s with
  | nil => exact h
  | cons e es ih =>
    simp only [stat_iterate, List.foldl_cons]
    exact ih _ (stat_dispatch_ready s e h)

theorem stat_iterate_inv (n : Int) (events : List StatEvent) (s : Stat) (h : StatInv n s)
    (hret : s.ret = none) : StatInv n (stat_iterate s events) := by
  obtain ⟨f1, f2, f3, f4, f5, f6, f7, f8⟩ := stat_iterate_frame events s
  obtain ⟨h1, h2, h3, h4, h5⟩ := h
  unfold StatInv
  rw [f1, f2, f4, f5, f7]
  refine ⟨h1, ?_, h3, ?_, ?_⟩
  · rcases h2 with ⟨a, b, c⟩ | ⟨a, b⟩ | ⟨a, b, c⟩
    · exact Or.inl ⟨a, b, stat_iterate_ready events s c⟩
    · rw [hret] at a; simp at a
    · rw [hret] at a; simp at a
  · intro hs
    have := h4 hs
    have hl : (stat_iterate s events).ops.length = 0 := by rw [f6, this]; rfl
    exact List.eq_nil_of_length_eq_zero hl
  · intro hs
    exact ⟨(h5 hs).1, by rw [f6]; exact (h5 hs).2⟩

theorem stat_tick_facts (n : Int) (s : Stat) (t2 : Int) (h : StatInv n s) (hn : n ≤ INT_MAX)
    (hret : s.ret = none) :
    (stat_tick s t2).samples = s.samples - 1 ∧
      tick_lines (stat_tick s t2).out = tick_lines s.out + 1 ∧
      printed (stat_tick s t2).out =
        printed s.out ++ (s.streams.head.map fun a => pretty_print a.amp) ++ [Out.tick_end] := by
  obtain ⟨h1, h2, -⟩ := h
  have hpos : 0 < s.samples := by
    rcases h2 with ⟨-, b, -⟩ | ⟨a, -⟩ | ⟨a, -⟩
    · exact b
    · rw [hret] at a; simp at a
    · rw [hret] at a; simp at a
  unfold INT_MAX at hn
  refine ⟨?_, ?_, ?_⟩
  · show to_int (s.samples - 1) = s.samples - 1
    exact to_int_of_range (by omega) (by omega)
  · show tick_lines (s.out ++ (s.streams.head.map fun a => pretty_print a.amp) ++
      [Out.tick_end]) = _
    rw [tick_lines_append, tick_lines_append, tick_lines_fields]
    rfl
  · show printed (s.out ++ (s.streams.head.map fun a => pretty_print a.amp) ++
      [Out.tick_end]) = _
    rw [printed_append, printed_append, printed_fields]
    rfl

theorem stat_switch_inv (n : Int) (s : Stat) (t1 t2 : Int) (h : StatInv n s)
    (hn : n ≤ INT_MAX) (hret : s.ret = none) (hready : s.pa_ready = 1) :
    StatInv n (stat_switch s t1 t2) := by
  have htick := stat_tick_facts n s t2 h hn hret
  obtain ⟨h1, h2, h3, h4, h5⟩ := h
  have hpos : 0 < s.samples := by
    rcases h2 with ⟨-, b, -⟩ | ⟨a, -⟩ | ⟨a, -⟩
    · exact b
    · rw [hret] at a; simp at a
    · rw [hret] at a; simp at a
  unfold stat_switch
  by_cases s0 : s.state = 0
  · rw [if_pos s0]
    refine ⟨h1, Or.inl ⟨hret, hpos, Or.inr (Or.inl hready)⟩, ?_, ?_, ?_⟩
    · show 0 ≤ s.state + 1 ∧ s.state + 1 ≤ 3
      omega
    · intro hc
      have : s.state + 1 = 0 := hc
      omega
    · intro _
      show s.ops.length = 0 ∧ (s.ops ++ [false]).length = 1
      rw [h4 s0]
      exact ⟨rfl, rfl⟩
  rw [if_neg s0]
  by_cases s1 : s.state = 1
  · rw [if_pos s1]
    by_cases hd : operation_done s.ops s.pa_op = true
    · rw [if_pos hd]
      refine ⟨h1, Or.inl ⟨hret, hpos, Or.inr (Or.inl hready)⟩, ?_, ?_, ?_⟩
      · show 0 ≤ s.state + 1 ∧ s.state + 1 ≤ 3
        omega
      · intro hc
        have : s.state + 1 = 0 := hc
        omega
      · intro hc
        have : s.state + 1 = 1 := hc
        omega
    · rw [if_neg hd]
      exact ⟨h1, h2, h3, h4, h5⟩
  rw [if_neg s1]
  by_cases s2 : s.state = 2
  · rw [if_pos s2]
    refine ⟨?_, Or.inl ⟨hret, hpos, Or.inr (Or.inl hready)⟩, ?_, ?_, ?_⟩
    · show s.samples + tick_lines (if s.quiet = 0 then s.out ++ header_lines s.streams.head
        else s.out) = n
      split_ifs
      · rw [tick_lines_append, tick_lines_header]
        exact h1
      · exact h1
    · show 0 ≤ s.state + 1 ∧ s.state + 1 ≤ 3
      omega
    · intro hc
      have : s.state + 1 = 0 := hc
      omega
    · intro hc
      have : s.state + 1 = 1 := hc
      omega
  rw [if_neg s2]
  by_cases s3 : s.state = 3
  · rw [if_pos s3]
    by_cases hc : s.now < t1
    · simp only [if_pos hc]
      obtain ⟨t1a, t1b, -⟩ := htick
      by_cases hz : (stat_tick s t2).samples = 0
      · rw [if_pos hz]
        refine ⟨?_, Or.inr (Or.inl ⟨rfl, hz⟩), (show 0 ≤ s.state ∧ s.state ≤ 3 from h3),
          ?_, ?_⟩
        · show (stat_tick s t2).samples + tick_lines (stat_tick s t2).out = n
          rw [t1a, t1b]
          push_cast
          omega
        · intro hx
          have : s.state = 0 := hx
          omega
        · intro hx
          have : s.state = 1 := hx
          omega
      · rw [if_neg hz]
        refine ⟨?_, Or.inl ⟨hret, ?_, Or.inr (Or.inl hready)⟩, h3, ?_, ?_⟩
        · rw [t1a, t1b]
          push_cast
          omega
        · rw [t1a] at hz ⊢
          omega
        · intro hx
          have : s.state = 0 := hx
          omega
        · intro hx
          have : s.state = 1 := hx
          omega
    · simp only [if_neg hc]
      rw [if_neg (by omega)]
      exact ⟨h1, h2, h3, h4, h5⟩
  · omega

theorem stat_inv_samples_pos (n : Int) (s : Stat) (h : StatInv n s) (hret : s.ret = none) :
    0 < s.samples ∧ (s.pa_ready = 0 ∨ s.pa_ready = 1 ∨ s.pa_ready = 2) := by
  rcases h.2.1 with ⟨-, b, c⟩ | ⟨a, -⟩ | ⟨a, -⟩
  · exact ⟨b, c⟩
  · rw [hret] at a; simp at a
  · rw [hret] at a; simp at a

theorem stat_pass_inv (n : Int) (s : Stat) (env : StatPass) (h : StatInv n s)
    (hn : n ≤ INT_MAX) : StatInv n (stat_pass s env) := by
  unfold stat_pass
  by_cases h1 : s.ret.isSome = true
  · rw [if_pos h1]
    exact h
  rw [if_neg h1]
  have hret : s.ret = none := ret_none_of_not_isSome h1
  obtain ⟨hpos, hrd⟩ := stat_inv_samples_pos n s h hret
  by_cases h2 : s.pa_ready = 0
  · rw [if_pos h2]
    exact stat_iterate_inv n env.events s h hret
  rw [if_neg h2]
  by_cases h3 : s.pa_ready = 2
  · rw [if_pos h3]
    refine ⟨?_, Or.inr (Or.inr ⟨rfl, hpos, h3⟩), h.2.2.1, h.2.2.2.1, h.2.2.2.2⟩
    show s.samples + tick_lines (s.out ++ [Out.err "Failed to connect to pulse audio\n"]) = n
    rw [tick_lines_append]
    exact h.1
  rw [if_neg h3]
  have hready : s.pa_ready = 1 := by omega
  rw [if_neg (by omega)]
  have hsw := stat_switch_inv n s env.time1 env.time2 h hn hret hready
  by_cases h4 : (stat_switch s env.time1 env.time2).ret.isSome = true
  · rw [if_pos h4]
    exact hsw
  rw [if_neg h4]
  exact stat_iterate_inv n env.events _ hsw (ret_none_of_not_isSome h4)

theorem stat_inv_run (n : Int) (sink : Option (List Char)) (quiet t0 : Int)
    (script : List StatPass) (h0 : 0 < n) (hn : n ≤ INT_MAX) :
    StatInv n (pa_stat n sink quiet t0 script) := by
  unfold pa_stat
  have hinit : StatInv n (stat_init n sink quiet t0) := by
    refine ⟨?_, Or.inl ⟨rfl, h0, Or.inl rfl⟩,
      ⟨le_refl _, (show (0 : Int) ≤ 3 by decide)⟩, fun _ => rfl, ?_⟩
    · show n + ((tick_lines [] : Nat) : Int) = n
      simp [tick_lines]
    · intro hc
      exact absurd (show (0 : Int) = 1 from hc) (by decide)
  generalize stat_init n sink quiet t0 = s at hinit
  induction script generalizing s with
  | nil => exact hinit
  | cons env rest ih =>
    simp only [List.foldl_cons]
    exact ih _ (stat_pass_inv n s env hinit hn)

theorem stat_switch_sampling (s : Stat) (t1 t2 : Int) (hstate : s.state = 3) :
    stat_switch s t1 t2 =
      if (if s.now < t1 then stat_tick s t2 else s).samples = 0 then
        stat_teardown_exit { (if s.now < t1 then stat_tick s t2 else s) with pa_ready := 3 }
      else if s.now < t1 then stat_tick s t2 else s := by
  unfold stat_switch
  rw [if_neg (by omega), if_neg (by omega), if_neg (by omega), if_pos hstate]

theorem stat_pass_ready (s : Stat) (env : StatPass) (hret : s.ret = none)
    (hready : s.pa_ready = 1) :
    stat_pass s env =
      if (stat_switch s env.time1 env.time2).ret.isSome then stat_switch s env.time1 env.time2
      else stat_iterate (stat_switch s env.time1 env.time2) env.events := by
  unfold stat_pass
  rw [if_neg (by rw [hret]; simp), if_neg (by omega), if_neg (by omega), if_neg (by omega)]

theorem stat_pass_sampling (n : Int) (s : Stat) (env : StatPass) (h : StatInv n s)
    (hn : n ≤ INT_MAX) (hret : s.ret = none) (hready : s.pa_ready = 1)
    (hstate : s.state = 3) :
    (s.now < env.time1 →
      printed (stat_pass s env).out =
        printed s.out ++ (s.streams.head.map fun a => pretty_print a.amp) ++ [Out.tick_end]) ∧
    (¬ s.now < env.time1 → printed (stat_pass s env).out = printed s.out) := by
  obtain ⟨-, -, htick⟩ := stat_tick_facts n s env.time2 h hn hret
  obtain ⟨hpos, -⟩ := stat_inv_samples_pos n s h hret
  rw [stat_pass_ready s env hret hready, stat_switch_sampling s env.time1 env.time2 hstate]
  constructor
  · intro hc
    simp only [if_pos hc]
    by_cases hz : (stat_tick s env.time2).samples = 0
    · rw [if_pos hz]
      rw [if_pos (show (stat_teardown_exit _).ret.isSome = true from rfl)]
      exact htick
    · rw [if_neg hz]
      have hr : (stat_tick s env.time2).ret = none := hret
      rw [if_neg (show ¬ (stat_tick s env.time2).ret.isSome = true by rw [hr]; simp),
        (stat_iterate_frame env.events _).2.2.2.2.2.2.2]
      exact htick
  · intro hc
    simp only [if_neg hc]
    rw [if_neg (show ¬ s.samples = 0 by omega),
      if_neg (show ¬ s.ret.isSome = true by rw [hret]; simp),
      (stat_iterate_frame env.events _).2.2.2.2.2.2.2]

theorem stat_dispatch_quiet (s : Stat) (e : StatEvent)
    (he : ∀ w peek, e ≠ StatEvent.read w peek) (h : ∀ a ∈ s.streams.head, a.amp = -1) :
    ∀ a ∈ (stat_dispatch s e).streams.head, a.amp = -1 := by
  cases e with
  | state st => exact h
  | source i last =>
    intro a ha
    have ha2 : a ∈ (pa_source_cb s.streams s.streams.head.length i last).head := ha
    unfold pa_source_cb at ha2
    split_ifs at ha2
    · exact h a ha2
    · rcases List.mem_cons.mp ha2 with hx | hx
      · rw [hx]
      · exact h a hx
    · exact h a ha2
  | read w peek => exact absurd rfl (he w peek)
  | op_done op => exact h

theorem stat_iterate_quiet (events : List StatEvent) (s : Stat) (he : no_data events)
    (h : ∀ a ∈ s.streams.head, a.amp = -1) :
    ∀ a ∈ (stat_iterate s events).streams.head, a.amp = -1 := by
  induction events generalizing s with
  | nil => exact h
  | cons e es ih =>
    simp only [stat_iterate, List.foldl_cons]
    exact ih _ (fun x hx => he x (List.mem_cons_of_mem _ hx))
      (stat_dispatch_quiet s e (he e (List.mem_cons_self _ _)) h)

theorem stat_tick_reset (s : Stat) (t2 : Int) : ∀ a ∈ (stat_tick s t2).streams.head, a.amp = -1 := by
  intro a ha
  have ha2 : a ∈ s.streams.head.map fun a => { a with amp := -1 } := ha
  obtain ⟨b, -, rfl⟩ := List.mem_map.mp ha2
  rfl

theorem stat_pass_reset (s : Stat) (env : StatPass)
    (hret : s.ret = none) (hready : s.pa_ready = 1) (hstate : s.state = 3)
    (hclock : s.now < env.time1) (hquiet : no_data env.events) :
    ∀ a ∈ (stat_pass s env).streams.head, a.amp = -1 := by
  rw [stat_pass_ready s env hret hready, stat_switch_sampling s env.time1 env.time2 hstate]
  simp only [if_pos hclock]
  by_cases hz : (stat_tick s env.time2).samples = 0
  · rw [if_pos hz]
    rw [if_pos (show (stat_teardown_exit _).ret.isSome = true from rfl)]
    exact stat_tick_reset s env.time2
  · rw [if_neg hz]
    have hr : (stat_tick s env.time2).ret = none := hret
    rw [if_neg (show ¬ (stat_tick s env.time2).ret.isSome = true by rw [hr]; simp)]
    exact stat_iterate_quiet env.events _ hquiet (stat_tick_reset s env.time2)

/-! ### Progress of `pa_stat` when the server answers and the clock advances -/

theorem stat_dispatch_done_mono (s : Stat) (e : StatEvent) (k : Nat)
    (h : s.ops.getD k false = true) : (stat_dispatch s e).ops.getD k false = true := by
  cases e with
  | op_done j => exact getD_set_true_mono s.ops j k h
  | read w peek =>
    simp only [stat_dispatch]
    split <;> exact h
  | _ => exact h

theorem stat_iterate_done_mono (events : List StatEvent) (s : Stat) (k : Nat)
    (h : s.ops.getD k false = true) : (stat_iterate s events).ops.getD k false = true := by
  induction events generalizing s with
  | nil => exact h
  | cons e es ih =>
    simp only [stat_iterate, List.foldl_cons]
    exact ih _ (stat_dispatch_done_mono s e k h)

theorem stat_iterate_completes (events : List StatEvent) (s : Stat) (k : Nat)
    (hk : k < s.ops.length) (hmem : StatEvent.op_done k ∈ events) :
    (stat_iterate s events).ops.getD k false = true := by
  induction events generalizing s with
  | nil => simp at hmem
  | cons e es ih =>
    simp only [stat_iterate, List.foldl_cons]
    rcases List.mem_cons.mp hmem with h1 | h1
    · subst h1
      exact stat_iterate_done_mono es _ k (getD_set_true_self s.ops k hk)
    · exact ih _ (by rw [(stat_dispatch_frame s e).2.2.2.2.2.1]; exact hk) h1

theorem stat_iterate_stays_ready (events : List StatEvent) (s : Stat)
    (h1 : StatEvent.state PA_CONTEXT_FAILED ∉ events)
    (h2 : StatEvent.state PA_CONTEXT_TERMINATED ∉ events) (hready : s.pa_ready = 1) :
    (stat_iterate s events).pa_ready = 1 := by
  induction events generalizing s with
  | nil => exact hready
  | cons e es ih =>
    simp only [stat_iterate, List.foldl_cons]
    apply ih _ (fun hc => h1 (List.mem_cons_of_mem _ hc))
      (fun hc => h2 (List.mem_cons_of_mem _ hc))
    cases e with
    | state st =>
      cases st with
      | PA_CONTEXT_FAILED => exact absurd (List.mem_cons_self _ _) h1
      | PA_CONTEXT_TERMINATED => exact absurd (List.mem_cons_self _ _) h2
      | PA_CONTEXT_READY => rfl
      | _ => exact hready
    | read w peek =>
      simp only [stat_dispatch]
      split <;> exact hready
    | _ => exact hready

theorem stat_switch_progress (n : Int) (s : Stat) (t1 t2 : Int) (h : StatInv n s)
    (hn : n ≤ INT_MAX) (hret : s.ret = none) (hready : s.pa_ready = 1)
    (hclock : s.now < t1) :
    (stat_switch s t1 t2).now ≤ max s.now t2 ∧
      ((stat_switch s t1 t2).ret = some 0 ∨
        ((stat_switch s t1 t2).ret = none ∧ (stat_switch s t1 t2).pa_ready = 1 ∧
          (3 - (stat_switch s t1 t2).state + (stat_switch s t1 t2).samples + 1 ≤
              3 - s.state + s.samples ∨
            (s.state = 1 ∧ ¬ operation_done s.ops s.pa_op = true ∧
              stat_switch s t1 t2 = s)))) := by
  obtain ⟨hsamp, -, -⟩ := stat_tick_facts n s t2 h hn hret
  obtain ⟨hpos, -⟩ := stat_inv_samples_pos n s h hret
  have h3 := h.2.2.1
  by_cases s0 : s.state = 0
  · have hsw : stat_switch s t1 t2 =
        { s with
          pa_op := s.ops.length
          ops := s.ops ++ [false]
          calls := s.calls ++ [Call.get_source_info_list s.ops.length]
          state := s.state + 1 } := by
      unfold stat_switch
      rw [if_pos s0]
    rw [hsw]
    refine ⟨le_max_left _ _, Or.inr ⟨hret, hready, Or.inl ?_⟩⟩
    show 3 - (s.state + 1) + s.samples + 1 ≤ 3 - s.state + s.samples
    omega
  by_cases s1 : s.state = 1
  · by_cases hd : operation_done s.ops s.pa_op = true
    · have hsw : stat_switch s t1 t2 =
          { s with calls := s.calls ++ [Call.operation_unref s.pa_op], state := s.state + 1 } := by
        unfold stat_switch
        rw [if_neg s0, if_pos s1, if_pos hd]
      rw [hsw]
      refine ⟨le_max_left _ _, Or.inr ⟨hret, hready, Or.inl ?_⟩⟩
      show 3 - (s.state + 1) + s.samples + 1 ≤ 3 - s.state + s.samples
      omega
    · have hsw : stat_switch s t1 t2 = s := by
        unfold stat_switch
        rw [if_neg s0, if_pos s1, if_neg hd]
      rw [hsw]
      exact ⟨le_max_left _ _, Or.inr ⟨hret, hready, Or.inr ⟨s1, hd, rfl⟩⟩⟩
  by_cases s2 : s.state = 2
  · have hsw : stat_switch s t1 t2 =
        { s with
          out := if s.quiet = 0 then s.out ++ header_lines s.streams.head else s.out
          state := s.state + 1 } := by
      unfold stat_switch
      rw [if_neg s0, if_neg s1, if_pos s2]
    rw [hsw]
    refine ⟨le_max_left _ _, Or.inr ⟨hret, hready, Or.inl ?_⟩⟩
    show 3 - (s.state + 1) + s.samples + 1 ≤ 3 - s.state + s.samples
    omega
  have s3 : s.state = 3 := by omega
  rw [stat_switch_sampling s t1 t2 s3]
  simp only [if_pos hclock]
  by_cases hz : (stat_tick s t2).samples = 0
  · rw [if_pos hz]
    exact ⟨le_max_right _ _, Or.inl rfl⟩
  · rw [if_neg hz]
    refine ⟨le_max_right _ _, Or.inr ⟨hret, hready, Or.inl ?_⟩⟩
    rw [hsamp]
    show 3 - s.state + (s.samples - 1) + 1 ≤ 3 - s.state + s.samples
    omega

theorem stat_good_step (n k : Int) (s : Stat) (env : StatPass) (hn : n ≤ INT_MAX)
    (h : stat_good n k s) (hclock : s.now < env.time1)
    (hprompt : stat_prompt env.events) :
    stat_good n (k + 1) (stat_pass s env) ∧ (stat_pass s env).now ≤ max s.now env.time2 := by
  obtain ⟨hinv, hcase⟩ := h
  have hinv2 := stat_pass_inv n s env hinv hn
  rcases hcase with h0 | ⟨hret, hready, hdone, hphi⟩
  · have hp : stat_pass s env = s := by
      unfold stat_pass
      rw [if_pos (by rw [h0]; rfl)]
    rw [hp]
    exact ⟨⟨hinv, Or.inl h0⟩, le_max_left _ _⟩
  · obtain ⟨hnow, hsw⟩ := stat_switch_progress n s env.time1 env.time2 hinv hn hret hready hclock
    have hswinv := stat_switch_inv n s env.time1 env.time2 hinv hn hret hready
    rw [stat_pass_ready s env hret hready] at hinv2 ⊢
    rcases hsw with h0 | ⟨hr, hrd, hprog⟩
    · rw [if_pos (by rw [h0]; rfl)]
      exact ⟨⟨hswinv, Or.inl h0⟩, hnow⟩
    · rw [if_neg (by rw [hr]; simp)] at hinv2 ⊢
      obtain ⟨f1, f2, f3, f4, f5, f6, -, -⟩ :=
        stat_iterate_frame env.events (stat_switch s env.time1 env.time2)
      refine ⟨⟨hinv2, Or.inr ⟨f4.trans hr, ?_, Or.inl ?_, ?_⟩⟩, by rw [f3]; exact hnow⟩
      · exact stat_iterate_stays_ready env.events _ hprompt.1 hprompt.2.1 hrd
      · intro hst
        rw [f1] at hst
        obtain ⟨hop, hlen⟩ := hswinv.2.2.2.2 hst
        rw [f5, hop]
        exact stat_iterate_completes env.events _ 0 (by omega) hprompt.2.2
      · rw [f1, f2]
        rcases hprog with hlt | ⟨hs1, hnd, heq⟩
        · omega
        · rw [heq]
          rcases hdone with hd | hk0
          · exact absurd (hd hs1) hnd
          · have hle : s.samples ≤ n := by
              have := hinv.1
              omega
            omega

theorem clock_advances_mono (more : List StatPass) (b c : Int) (hbc : c ≤ b)
    (h : clock_advances b more) : clock_advances c more := by
  induction more generalizing b c with
  | nil => trivial
  | cons p ps ih =>
    obtain ⟨h1, h2⟩ := h
    exact ⟨by omega, ih (max b p.time2) (max c p.time2) (by omega) h2⟩

theorem stat_good_run (n : Int) (hn : n ≤ INT_MAX) (more : List StatPass) (k : Int) (s : Stat)
    (h : stat_good n k s) (hclock : clock_advances s.now more)
    (hprompt : ∀ p ∈ more, stat_prompt p.events) :
    stat_good n (k + more.length) (more.foldl stat_pass s) := by
  induction more generalizing k s with
  | nil => simpa using h
  | cons p ps ih =>
    simp only [List.foldl_cons, List.length_cons]
    obtain ⟨hc1, hc2⟩ := hclock
    obtain ⟨h1, hnow⟩ := stat_good_step n k s p hn h hc1 (hprompt p (List.mem_cons_self _ _))
    have h2 := ih (k + 1) _ h1 (clock_advances_mono ps _ _ hnow hc2)
      fun q hq => hprompt q (List.mem_cons_of_mem _ hq)
    have he : k + ((ps.length : Int) + 1) = k + 1 + ps.length := by omega
    push_cast
    rw [he]
    exact h2

theorem stat_returns (n : Int) (hn : n ≤ INT_MAX) (s : Stat) (more : List StatPass)
    (h : StatInv n s) (hret : s.ret = none) (hready : s.pa_ready = 1)
    (hclock : clock_advances s.now more) (hprompt : ∀ p ∈ more, stat_prompt p.events)
    (hlen : n + 3 ≤ more.length) : (more.foldl stat_pass s).ret = some 0 := by
  have hle : s.samples ≤ n := by
    have := h.1
    omega
  have h3 := h.2.2.1
  have hgood : stat_good n 0 s :=
    ⟨h, Or.inr ⟨hret, hready, Or.inr rfl, by omega⟩⟩
  obtain ⟨hinv, hcase⟩ := stat_good_run n hn more 0 s hgood hclock hprompt
  rcases hcase with h0 | ⟨hr, -, -, hphi⟩
  · exact h0
  · obtain ⟨hpos, -⟩ := stat_inv_samples_pos n _ hinv hr
    have := hinv.2.2.1
    omega

theorem stat_switch_reset (s : Stat) (t1 t2 : Int) (hstate : s.state = 3)
    (hclock : s.now < t1) : ∀ a ∈ (stat_switch s t1 t2).streams.head, a.amp = -1 := by
  rw [stat_switch_sampling s t1 t2 hstate]
  simp only [if_pos hclock]
  split_ifs
  · exact stat_tick_reset s t2
  · exact stat_tick_reset s t2

theorem stat_pass_teardown (s : Stat) (env : StatPass) (hret : s.ret = none)
    (hready : s.pa_ready = 1) (hstate : s.state = 3)
    (hdone : (stat_pass s env).ret = some 0) :
    (stat_pass s env).calls =
      s.calls ++ cleanup_calls (stat_pass s env).streams.head ++ disconnect_calls := by
  rw [stat_pass_ready s env hret hready, stat_switch_sampling s env.time1 env.time2 hstate]
    at hdone ⊢
  by_cases hz : (if s.now < env.time1 then stat_tick s env.time2 else s).samples = 0
  · rw [if_pos hz]
    rw [if_pos (show (stat_teardown_exit _).ret.isSome = true from rfl)]
    by_cases hc : s.now < env.time1
    · simp only [if_pos hc]
      rfl
    · simp only [if_neg hc]
      rfl
  · rw [if_neg hz] at hdone
    have hr : (if s.now < env.time1 then stat_tick s env.time2 else s).ret = none := by
      split_ifs
      · exact hret
      · exact hret
    rw [if_neg (by rw [hr]; simp), (stat_iterate_frame env.events _).2.2.2.1, hr] at hdone
    simp at hdone

theorem stat_pass_now (s : Stat) (env : StatPass) (hret : s.ret = none)
    (hready : s.pa_ready = 1) (hstate : s.state = 3) :
    (s.now < env.time1 → (stat_pass s env).now = env.time2) ∧
      (¬ s.now < env.time1 → (stat_pass s env).now = s.now) := by
  rw [stat_pass_ready s env hret hready, stat_switch_sampling s env.time1 env.time2 hstate]
  constructor
  · intro hc
    simp only [if_pos hc]
    split_ifs
    all_goals first
      | rfl
      | (rw [(stat_iterate_frame env.events _).2.2.1]
         rfl)
  · intro hc
    simp only [if_neg hc]
    split_ifs
    all_goals first
      | rfl
      | (rw [(stat_iterate_frame env.events _).2.2.1]
         rfl)
      | rw [(stat_iterate_frame env.events _).2.2.1]

theorem pretty_print_dash_iff_sentinel (a : Int) (h : -1 ≤ a) :
    pretty_print a = Out.dash ↔ a = -1 := by
  unfold pretty_print
  split_ifs with h1
  · exact ⟨fun _ => by omega, fun _ => rfl⟩
  · exact ⟨fun hc => (by cases hc), fun hc => by omega⟩

theorem pretty_print_dash_iff (a : Int) : pretty_print a = Out.dash ↔ a < 0 := by
  unfold pretty_print
  split_ifs with h
  · exact ⟨fun _ => h, fun _ => rfl⟩
  · exact ⟨fun hc => (by cases hc), fun hc => absurd hc h⟩

/-- The sample count of the amplitude utility.  For every sample count `n > 0` and every
run of `pa_stat`: at most `n` lines of samples are printed and the run has returned 0
exactly when `n` were; it returns 1 only with `pa_ready == 2`.  In the sampling state a
pass prints one line and stores the second it read when the clock is past `now`, and
prints nothing and keeps `now` otherwise; the line has one field per monitored source,
the field of a source being "-" exactly when its peak is negative, which for a peak of
at least -1 means the sentinel -1; every peak is -1 after the line is printed, and still
is at the end of the pass when no data arrives during it; a pass that returns 0 first
releases every monitored source and the connection.  From any point where the connection
is ready, `n + 3` passes in which the server answers without failing and the clock
advances make the run return 0. -/
theorem pa_stat_sample_count (n : Int) (h0 : 0 < n) (hn : n ≤ INT_MAX)
    (sink : Option (List Char)) (quiet t0 : Int) (script : List StatPass) :
    ((tick_lines (pa_stat n sink quiet t0 script).out : Int) ≤ n) ∧
    ((pa_stat n sink quiet t0 script).ret = some 0 ↔
      (tick_lines (pa_stat n sink quiet t0 script).out : Int) = n) ∧
    ((pa_stat n sink quiet t0 script).ret = none ∨
      (pa_stat n sink quiet t0 script).ret = some 0 ∨
      (pa_stat n sink quiet t0 script).ret = some 1) ∧
    ((pa_stat n sink quiet t0 script).ret = some 1 →
      (pa_stat n sink quiet t0 script).pa_ready = 2) ∧
    (∀ env : StatPass,
      (pa_stat n sink quiet t0 script).ret = none →
      (pa_stat n sink quiet t0 script).pa_ready = 1 →
      (pa_stat n sink quiet t0 script).state = 3 →
      ((pa_stat n sink quiet t0 script).now < env.time1 →
        printed (stat_pass (pa_stat n sink quiet t0 script) env).out =
          printed (pa_stat n sink quiet t0 script).out ++
            ((pa_stat n sink quiet t0 script).streams.head.map fun a => pretty_print a.amp) ++
            [Out.tick_end]) ∧
      (¬ (pa_stat n sink quiet t0 script).now < env.time1 →
        printed (stat_pass (pa_stat n sink quiet t0 script) env).out =
          printed (pa_stat n sink quiet t0 script).out) ∧
      ((pa_stat n sink quiet t0 script).now < env.time1 →
        (stat_pass (pa_stat n sink quiet t0 script) env).now = env.time2) ∧
      (¬ (pa_stat n sink quiet t0 script).now < env.time1 →
        (stat_pass (pa_stat n sink quiet t0 script) env).now =
          (pa_stat n sink quiet t0 script).now) ∧
      ((pa_stat n sink quiet t0 script).now < env.time1 →
        ∀ a ∈ (stat_switch (pa_stat n sink quiet t0 script) env.time1 env.time2).streams.head,
          a.amp = -1) ∧
      ((pa_stat n sink quiet t0 script).now < env.time1 → no_data env.events →
        ∀ a ∈ (stat_pass (pa_stat n sink quiet t0 script) env).streams.head, a.amp = -1) ∧
      ((stat_pass (pa_stat n sink quiet t0 script) env).ret = some 0 →
        (stat_pass (pa_stat n sink quiet t0 script) env).calls =
          (pa_stat n sink quiet t0 script).calls ++
            cleanup_calls (stat_pass (pa_stat n sink quiet t0 script) env).streams.head ++
            disconnect_calls)) ∧
    (((pa_stat n sink quiet t0 script).streams.head.map fun a => pretty_print a.amp).length =
      (pa_stat n sink quiet t0 script).streams.head.length) ∧
    (∀ a : Int, pretty_print a = Out.dash ↔ a < 0) ∧
    (∀ a : Int, -1 ≤ a → (pretty_print a = Out.dash ↔ a = -1)) ∧
    (∀ more : List StatPass,
      (pa_stat n sink quiet t0 script).ret = none →
      (pa_stat n sink quiet t0 script).pa_ready = 1 →
      clock_advances (pa_stat n sink quiet t0 script).now more →
      (∀ p ∈ more, stat_prompt p.events) →
      n + 3 ≤ more.length →
      (pa_stat n sink quiet t0 (script ++ more)).ret = some 0) := by
  have hinv := stat_inv_run n sink quiet t0 script h0 hn
  generalize hr : pa_stat n sink quiet t0 script = r at hinv
  obtain ⟨h1, h2, h3, h4, h5⟩ := hinv
  refine ⟨?_, ?_, ?_, ?_, ?_, List.length_map _ _, pretty_print_dash_iff,
    pretty_print_dash_iff_sentinel, ?_⟩
  · rcases h2 with ⟨-, b, -⟩ | ⟨-, b⟩ | ⟨-, b, -⟩ <;> omega
  · constructor
    · intro hret
      rcases h2 with ⟨a, -⟩ | ⟨-, b⟩ | ⟨a, -⟩
      · rw [hret] at a; simp at a
      · omega
      · rw [hret] at a; simp at a
    · intro ht
      rcases h2 with ⟨-, b, -⟩ | ⟨a, -⟩ | ⟨-, b, -⟩
      · omega
      · exact a
      · omega
  · rcases h2 with ⟨a, -⟩ | ⟨a, -⟩ | ⟨a, -⟩
    · exact Or.inl a
    · exact Or.inr (Or.inl a)
    · exact Or.inr (Or.inr a)
  · intro hret
    rcases h2 with ⟨a, -⟩ | ⟨a, -⟩ | ⟨-, -, c⟩
    · rw [hret] at a; simp at a
    · rw [hret] at a; simp at a
    · exact c
  · intro env hret hready hstate
    have hs := stat_pass_sampling n r env ⟨h1, h2, h3, h4, h5⟩ hn hret hready hstate
    have hnow := stat_pass_now r env hret hready hstate
    exact ⟨hs.1, hs.2, hnow.1, hnow.2,
      fun hc => stat_switch_reset r env.time1 env.time2 hstate hc,
      fun hc hq => stat_pass_reset r env hret hready hstate hc hq,
      fun hd => stat_pass_teardown r env hret hready hstate hd⟩
  · intro more hret hready hclock hprompt hlen
    have : pa_stat n sink quiet t0 (script ++ more) = more.foldl stat_pass r := by
      rw [← hr]
      simp [pa_stat, List.foldl_append]
    rw [this]
    exact stat_returns n hn r more ⟨h1, h2, h3, h4, h5⟩ hret hready hclock hprompt hlen

theorem pa_stat_sample_count_witness :
    (pa_stat 3 none 1 0 (one_source_script ++ seconds_script)).ret = some 0 ∧
      (tick_lines (pa_stat 3 none 1 0 (one_source_script ++ seconds_script)).out : Int) = 3 ∧
      printed (pa_stat 3 none 1 0 (one_source_script ++ seconds_script)).out =
        [Out.dash, Out.tick_end, Out.dash, Out.tick_end, Out.dash, Out.tick_end] :=
  ⟨(pa_stat_sample_count 3 (by decide) (by decide) none 1 0 one_source_script).2.2.2.2.2.2.2.2
      seconds_script (by decide) (by decide)
      (by
        have hnow : (pa_stat 3 none 1 0 one_source_script).now = 0 := by decide
        rw [hnow]
        simp [clock_advances, seconds_script])
      (by
        intro p hp
        simp only [seconds_script, List.mem_cons, List.mem_singleton, List.not_mem_nil,
          or_false] at hp
        rcases hp with rfl | rfl | rfl | rfl | rfl | rfl <;>
          exact ⟨by decide, by decide, by decide⟩)
      (by decide),
    ((pa_stat_sample_count 3 (by decide) (by decide) none 1 0
      (one_source_script ++ seconds_script)).2.1).mp (by decide),
    by decide⟩

/-- C6: in a run of `pa_stat` that reaches the sampling state, after the only monitored
source has received the sample -32768 its peak is -32768, not the sentinel -1, and data
did arrive since the last print; yet the line printed at the next second consists of
the field "-". -/
theorem pa_stat_dash_without_sentinel :
    (pa_stat 3 none 1 0 loud_script).ret = none ∧
      (pa_stat 3 none 1 0 loud_script).pa_ready = 1 ∧
      (pa_stat 3 none 1 0 loud_script).state = 3 ∧
      (pa_stat 3 none 1 0 loud_script).streams.head.map (fun a => a.amp) = [-32768] ∧
      (-32768 : Int) ≠ -1 ∧
      printed (stat_pass (pa_stat 3 none 1 0 loud_script)
        { time1 := 1, time2 := 1, events := [] }).out = [Out.dash, Out.tick_end] := by
  decide

theorem peak_fold_in_range (samples : List Int) (m : Int) (hm : -1 ≤ m) (hm1 : m ≤ 32767)
    (hall : ∀ s ∈ samples, -32767 ≤ s ∧ s ≤ 32767) :
    -1 ≤ samples.foldl peak_step m ∧ samples.foldl peak_step m ≤ 32767 := by
  induction samples generalizing m with
  | nil => exact ⟨hm, hm1⟩
  | cons s rest ih =>
    have hs := hall s (List.mem_cons_self _ _)
    have hstep := peak_step_eq_max m s hm hs.1 hs.2
    have hr : -1 ≤ peak_step m s ∧ peak_step m s ≤ 32767 := by
      rw [hstep]
      rcases abs_cases s with ⟨h1, h2⟩ | ⟨h1, h2⟩ <;> omega
    simp only [List.foldl_cons]
    exact ih (peak_step m s) hr.1 hr.2 fun x hx => hall x (List.mem_cons_of_mem _ hx)

/-- Registration, the tick reset and every read callback on a buffer without the sample
-32768 keep the amplitude in `[-1, 32767]`. -/
theorem amplitude_in_range_without_lowest_sample :
    (∀ (w : Nat) (e : pa_source_info × Int), (new_monitored_stream w e).amp = -1) ∧
    (∀ (s : Stat) (t2 : Int), ∀ a ∈ (stat_tick s t2).streams.head, a.amp = -1) ∧
    (∀ (watch : monitored_stream) (peek : Option (List Nat)),
      -1 ≤ watch.amp → watch.amp ≤ 32767 →
      (∀ data, peek = some data → ∀ pos, pos < data.length / 2 → short_at data pos ≠ -32768) →
      -1 ≤ (pa_read_cb watch peek).amp ∧ (pa_read_cb watch peek).amp ≤ 32767) := by
  refine ⟨fun _ _ => rfl, stat_tick_reset, ?_⟩
  intro watch peek hm hm1 hall
  cases peek with
  | none => exact ⟨hm, hm1⟩
  | some data =>
    have hfold : (pa_read_cb watch (some data)).amp =
        ((List.range (data.length / 2)).map (short_at data)).foldl peak_step watch.amp := by
      simp [pa_read_cb, List.foldl_map]
    rw [hfold]
    apply peak_fold_in_range _ _ hm hm1
    intro s hs
    obtain ⟨pos, hpos, rfl⟩ := List.mem_map.mp hs
    have h1 := hall data rfl pos (List.mem_range.mp hpos)
    have h2 : -32768 ≤ short_at data pos ∧ short_at data pos ≤ 32767 := by
      unfold short_at
      exact to_short_range _
    omega

/-- Every run of `pa_toggle_pid` that returns 0 has released each handle it acquired,
and none twice. -/
theorem toggle_normal_exit_balanced (pid : Int) (junk : pa_target)
    (script : List (List ToggleEvent)) (h : (pa_toggle_pid pid junk script).ret = some 0) :
    leaked (pa_toggle_pid pid junk script).calls = [] ∧
      released_twice (pa_toggle_pid pid junk script).calls = [] := by
  have hph := toggle_phase_run pid junk script
  generalize pa_toggle_pid pid junk script = r at h hph
  cases hph with
  | returned_unresolved rd t o =>
    constructor
    · simp [leaked, acquired, released, connect_calls, disconnect_calls]
    · simp [released_twice, released, connect_calls, disconnect_calls]
  | returned_moved rd t o i k =>
    constructor
    · simp [leaked, acquired, released, connect_calls, disconnect_calls]
    · simp [released_twice, released, connect_calls, disconnect_calls]
  | failed s o h1 hr hrd => simp at h
  | _ => simp at h

end PaUtils
